import Mathlib

/-!
# Verification of the MTPE-Tool core (Ancastal/MTPE-Tool)

Shallow embedding of the edit-metrics engine, the segment navigation logic and
the export/evaluation surfaces of the repository.

* `src/app.py` and `src/src/app.py` (two near-duplicate variants of the
  post-editing page): `calculate_edit_distance`, `highlight_differences`,
  `save_metrics`, the navigation buttons and segment-select dropdown of
  `main`, and the aggregation/export code of `display_results`.
* `src/pages/3_Evaluation.py`: the guard sequence in `main` feeding
  `calculate_metrics`.

Both app variants call `difflib.Differ().compare` on whitespace-split token
lists, so the CPython `difflib` algorithms (`SequenceMatcher` with its
autojunk heuristic and `Differ` with `_fancy_replace`) are embedded below,
translated from the CPython standard library source.

Modelling conventions:
* Python floats are modelled as exact rationals.  The ratio values of
  `_fancy_replace` are the exact fractions `2*M/T`, represented unreduced as
  numerator/denominator pairs and ordered by cross-multiplication; the two
  float constants (`best_ratio, cutoff = 0.74, 0.75`) become `74/100` and
  `3/4`.  The comparisons agree with CPython unless a ratio falls inside the
  `< 9e-18` gap between the binary double `0.74` and `74/100`, which needs
  token lengths beyond `10^14`.  The chained
  `real_quick_ratio() > x and quick_ratio() > x and ratio() > x` test of
  `_fancy_replace` is embedded as `ratio() > x`, since the first two are
  upper bounds of `ratio()`.  Wall-clock timestamps and durations are
  rationals (`ℚ`).
* Python strings are sequences of characters; `str.split()`, `str.rstrip()`
  and `str.isspace()` are modelled over the ASCII whitespace characters
  (space, `\t`, `\n`, `\r`, `\x0b`, `\x0c`).
* Wall-clock timestamps (`time.time()`) are rationals supplied by the event
  that triggers each Streamlit rerun.
-/

/-! ## Python string primitives -/

/-- The whitespace characters of Python `str.split()` / `str.isspace()`
(ASCII model, see the header). -/
def pyIsSpace (c : Char) : Bool :=
  c = ' ' || c = '\t' || c = '\n' || c = '\r' || c = '\x0b' || c = '\x0c'

/-- Accumulator version of Python `str.split()` with no arguments: split on
runs of whitespace, discarding empty pieces. -/
def pySplitAux : List Char → List Char → List String
  | [], acc => if acc = [] then [] else [String.mk acc.reverse]
  | c :: cs, acc =>
    if pyIsSpace c then
      if acc = [] then pySplitAux cs [] else String.mk acc.reverse :: pySplitAux cs []
    else pySplitAux cs (c :: acc)

/-- Python `original.split()` (whitespace splitting, no normalization),
as used by `calculate_edit_distance` and `highlight_differences`. -/
def pySplit (s : String) : List String := pySplitAux s.data []

/-- Python slicing `word[n:]` on a string (character based). -/
def strDrop (s : String) (n : Nat) : String := String.mk (s.data.drop n)

/-- Character-list prefix test (helper for `pyStartswith`). -/
def leadChars : List Char → List Char → Bool
  | [], _ => true
  | _ :: _, [] => false
  | c :: cs, d :: ds => c == d && leadChars cs ds

/-- Python `s.startswith(p)`. -/
def pyStartswith (s p : String) : Bool := leadChars p.data s.data

/-- Python `s.rstrip()` (trailing whitespace removed, ASCII model). -/
def pyRstrip (s : String) : String :=
  String.mk (s.data.reverse.dropWhile pyIsSpace).reverse

/-! ## difflib.SequenceMatcher

Translated from the CPython standard library (`Lib/difflib.py`), which the
app calls through `difflib.Differ`. -/

/-- The `isjunk` predicate and `autojunk` flag a `SequenceMatcher` is
constructed with. -/
structure SMParams (α : Type) where
  junk : α → Bool
  autojunk : Bool

/-- All positions of `x` in `b`, ascending: the index list `b2j[x]` built by
`SequenceMatcher.__chain_b` before junk/popular pruning. -/
def positionsOf {α : Type} [DecidableEq α] (b : List α) (x : α) : List Nat :=
  (List.range b.length).filter fun j => b[j]? = some x

/-- The autojunk ("popular element") test of `SequenceMatcher.__chain_b`:
with `autojunk` set and `len(b) >= 200`, elements occurring more than
`len(b) // 100 + 1` times are dropped from `b2j`. -/
def isPopular {α : Type} [DecidableEq α] (p : SMParams α) (b : List α) (x : α) : Bool :=
  p.autojunk && decide (200 ≤ b.length) && decide (b.length / 100 + 1 < b.count x)

/-- `b2j.get(x, [])` after `__chain_b` has removed junk and popular entries. -/
def b2jOf {α : Type} [DecidableEq α] (p : SMParams α) (b : List α) (x : α) : List Nat :=
  if p.junk x || isPopular p b x then [] else positionsOf b x

/-- `j2len.get(j, 0)` on the dict of the previous row of the
`find_longest_match` dynamic program. -/
def dictGet (d : List (Nat × Nat)) (j : Nat) : Nat :=
  match d.find? fun e => e.1 == j with
  | some e => e.2
  | none => 0

/-- Inner loop of `find_longest_match` for one `i`, over the ascending
positions `j` in `b2j[a[i]]`: `continue` below `blo`, `break` at `bhi`,
extend the runs of the previous row (`j2len`), record a strictly better
match.  `j - 1` at `j = 0` is Python's `-1`, absent from the dict. -/
def flmInner (j2len : List (Nat × Nat)) (blo bhi i : Nat) :
    List Nat → List (Nat × Nat) → Nat × Nat × Nat → List (Nat × Nat) × (Nat × Nat × Nat)
  | [], new, best => (new, best)
  | j :: js, new, best =>
    if j < blo then flmInner j2len blo bhi i js new best
    else if bhi ≤ j then (new, best)
    else
      let k := (if j = 0 then 0 else dictGet j2len (j - 1)) + 1
      let best2 := if best.2.2 < k then (i + 1 - k, j + 1 - k, k) else best
      flmInner j2len blo bhi i js ((j, k) :: new) best2

/-- Outer loop of `find_longest_match` over `i in range(alo, ahi)`. -/
def flmOuter {α : Type} [DecidableEq α] (p : SMParams α) (a b : List α) (blo bhi : Nat) :
    List Nat → List (Nat × Nat) → Nat × Nat × Nat → Nat × Nat × Nat
  | [], _, best => best
  | i :: rest, j2len, best =>
    let js := match a[i]? with
      | some x => b2jOf p b x
      | none => []
    let r := flmInner j2len blo bhi i js [] best
    flmOuter p a b blo bhi rest r.1 r.2

/-- The leftward `while` loops at the end of `find_longest_match`;
`wantJunk` selects the junk (second) or non-junk (first) variant.  The fuel
bounds the number of iterations; the loop stops when its guard fails. -/
def extendLeft {α : Type} [DecidableEq α] (p : SMParams α) (a b : List α)
    (alo blo : Nat) (wantJunk : Bool) : Nat → Nat × Nat × Nat → Nat × Nat × Nat
  | 0, best => best
  | fuel + 1, (bi, bj, bs) =>
    match a[bi - 1]?, b[bj - 1]? with
    | some x, some y =>
      if alo < bi ∧ blo < bj ∧ p.junk y = wantJunk ∧ x = y then
        extendLeft p a b alo blo wantJunk fuel (bi - 1, bj - 1, bs + 1)
      else (bi, bj, bs)
    | _, _ => (bi, bj, bs)

/-- The rightward `while` loops at the end of `find_longest_match`. -/
def extendRight {α : Type} [DecidableEq α] (p : SMParams α) (a b : List α)
    (ahi bhi : Nat) (wantJunk : Bool) : Nat → Nat × Nat × Nat → Nat × Nat × Nat
  | 0, best => best
  | fuel + 1, (bi, bj, bs) =>
    match a[bi + bs]?, b[bj + bs]? with
    | some x, some y =>
      if bi + bs < ahi ∧ bj + bs < bhi ∧ p.junk y = wantJunk ∧ x = y then
        extendRight p a b ahi bhi wantJunk fuel (bi, bj, bs + 1)
      else (bi, bj, bs)
    | _, _ => (bi, bj, bs)

/-- `SequenceMatcher.find_longest_match(alo, ahi, blo, bhi)`: the dynamic
program, then extension by non-junk elements, then by junk elements.  The
fuels dominate the possible iteration counts (`besti` decreases and stays
nonnegative; `bestsize` grows and `bestj + bestsize` stays below
`bhi ≤ len(b)`). -/
def findLongestMatch {α : Type} [DecidableEq α] (p : SMParams α) (a b : List α)
    (alo ahi blo bhi : Nat) : Nat × Nat × Nat :=
  let best := flmOuter p a b blo bhi (List.range' alo (ahi - alo)) [] (alo, blo, 0)
  let best := extendLeft p a b alo blo false (a.length + 1) best
  let best := extendRight p a b ahi bhi false (b.length + 1) best
  let best := extendLeft p a b alo blo true (a.length + 1) best
  let best := extendRight p a b ahi bhi true (b.length + 1) best
  best

/-- The recursion of `SequenceMatcher.get_matching_blocks` (the queue in
CPython collects the same blocks depth-first and sorts them; the recursion
below produces them directly in sorted order).  Ranges with no common
element yield `k = 0` and stop, so recursing on one-sided ranges is a no-op,
matching the queue's `if alo < i and blo < j` / `if i+k < ahi and j+k < bhi`
tests.  The fuel dominates the recursion depth. -/
def matchingBlocksFuel {α : Type} [DecidableEq α] (p : SMParams α) (a b : List α) :
    Nat → Nat → Nat → Nat → Nat → List (Nat × Nat × Nat)
  | 0, _, _, _, _ => []
  | fuel + 1, alo, ahi, blo, bhi =>
    let m := findLongestMatch p a b alo ahi blo bhi
    if m.2.2 = 0 then []
    else
      matchingBlocksFuel p a b fuel alo m.1 blo m.2.1 ++
        m :: matchingBlocksFuel p a b fuel (m.1 + m.2.2) ahi (m.2.1 + m.2.2) bhi

/-- The adjacent-block merging pass at the end of `get_matching_blocks`
(`i1 + k1 == i2 and j1 + k1 == j2` collapses to one block; zero-size
accumulators are not emitted).  The initial accumulator is `(0, 0, 0)`. -/
def mergeAdjacent : Nat × Nat × Nat → List (Nat × Nat × Nat) → List (Nat × Nat × Nat)
  | (i1, j1, k1), [] => if k1 = 0 then [] else [(i1, j1, k1)]
  | (i1, j1, k1), (i2, j2, k2) :: rest =>
    if i1 + k1 = i2 ∧ j1 + k1 = j2 then mergeAdjacent (i1, j1, k1 + k2) rest
    else (if k1 = 0 then [] else [(i1, j1, k1)]) ++ mergeAdjacent (i2, j2, k2) rest

/-- `SequenceMatcher.get_matching_blocks()`: merged sorted blocks plus the
terminal sentinel `(la, lb, 0)`. -/
def getMatchingBlocks {α : Type} [DecidableEq α] (p : SMParams α) (a b : List α) :
    List (Nat × Nat × Nat) :=
  mergeAdjacent (0, 0, 0)
      (matchingBlocksFuel p a b (a.length + b.length + 1) 0 a.length 0 b.length) ++
    [(a.length, b.length, 0)]

/-- The four opcode tags of `SequenceMatcher.get_opcodes()`. -/
inductive OpTag where
  | replace
  | delete
  | insert
  | equal
deriving DecidableEq

/-- The loop of `get_opcodes()` over the matching blocks, tracking the
cursor `(i, j)`: a gap before a block becomes `replace`/`delete`/`insert`,
a block of nonzero size becomes `equal`. -/
def getOpcodesAux : Nat → Nat → List (Nat × Nat × Nat) → List (OpTag × Nat × Nat × Nat × Nat)
  | _, _, [] => []
  | i, j, (ai, bj, size) :: rest =>
    (if i < ai ∧ j < bj then [(OpTag.replace, i, ai, j, bj)]
     else if i < ai then [(OpTag.delete, i, ai, j, bj)]
     else if j < bj then [(OpTag.insert, i, ai, j, bj)]
     else []) ++
    (if size = 0 then [] else [(OpTag.equal, ai, ai + size, bj, bj + size)]) ++
    getOpcodesAux (ai + size) (bj + size) rest

/-- `SequenceMatcher.get_opcodes()`. -/
def getOpcodes {α : Type} [DecidableEq α] (p : SMParams α) (a b : List α) :
    List (OpTag × Nat × Nat × Nat × Nat) :=
  getOpcodesAux 0 0 (getMatchingBlocks p a b)

/-- `sum(triple[-1] for triple in self.get_matching_blocks())`. -/
def matchesTotal (blocks : List (Nat × Nat × Nat)) : Nat :=
  (blocks.map fun m => m.2.2).sum

/-- Exact order on the nonnegative fractions `(num, den)` (positive
denominators) by cross-multiplication; the representation of the rational
ratio values of `_fancy_replace` (see the header). -/
def fracLt (x y : Nat × Nat) : Prop := x.1 * y.2 < y.1 * x.2

instance (x y : Nat × Nat) : Decidable (fracLt x y) := by
  unfold fracLt
  exact inferInstance

/-- `SequenceMatcher.ratio()` via `_calculate_ratio(matches, length)`:
`2.0 * matches / length` when `length` is nonzero, else `1.0`, as the exact
unreduced fraction. -/
def calcRatio {α : Type} [DecidableEq α] (p : SMParams α) (a b : List α) : Nat × Nat :=
  let m := matchesTotal (getMatchingBlocks p a b)
  if a.length + b.length = 0 then (1, 1)
  else (2 * m, a.length + b.length)

/-! ## difflib.Differ

`Differ()` is constructed with `linejunk=None, charjunk=IS_CHARACTER_JUNK`;
its line-level matcher is `SequenceMatcher(None, a, b)` and the intraline
matcher of `_fancy_replace` is `SequenceMatcher(IS_CHARACTER_JUNK)`.
`autojunk` defaults to true in both. -/

/-- Line-level matcher parameters (`linejunk=None`, autojunk default). -/
def lineJunkParams : SMParams String := ⟨fun _ => false, true⟩

/-- Character-level matcher parameters: `IS_CHARACTER_JUNK` treats a space
or a tab as junk. -/
def charJunkParams : SMParams Char := ⟨fun c => c = ' ' || c = '\t', true⟩

/-- The Python slice `x[lo:hi]` of a list. -/
def listSlice {α : Type} (l : List α) (lo hi : Nat) : List α :=
  (l.drop lo).take (hi - lo)

/-- `Differ._dump(tag, x, lo, hi)`: `'%s %s' % (tag, x[i])` for each index. -/
def dump (tag : String) (x : List String) (lo hi : Nat) : List String :=
  (listSlice x lo hi).map fun s => tag ++ " " ++ s

/-- `Differ._plain_replace`: with fewer `b` lines than `a` lines the
insertions are dumped first, otherwise the deletions. -/
def plainReplace (a b : List String) (alo ahi blo bhi : Nat) : List String :=
  if bhi - blo < ahi - alo then dump "+" b blo bhi ++ dump "-" a alo ahi
  else dump "-" a alo ahi ++ dump "+" b blo bhi

/-- A run of `n` copies of a tag character (`'^' * la` etc.). -/
def tagRun (c : Char) (n : Nat) : String := String.mk (List.replicate n c)

/-- The intraline tag strings `atags, btags` that `_fancy_replace` builds
from the character-level opcodes of the synch pair. -/
def intralineTags (aelt belt : List Char) : String × String :=
  (getOpcodes charJunkParams aelt belt).foldl
    (fun acc op =>
      let la := op.2.2.1 - op.2.1
      let lb := op.2.2.2.2 - op.2.2.2.1
      match op.1 with
      | OpTag.replace => (acc.1 ++ tagRun '^' la, acc.2 ++ tagRun '^' lb)
      | OpTag.delete => (acc.1 ++ tagRun '-' la, acc.2)
      | OpTag.insert => (acc.1, acc.2 ++ tagRun '+' lb)
      | OpTag.equal => (acc.1 ++ tagRun ' ' la, acc.2 ++ tagRun ' ' lb))
    ("", "")

/-- `difflib._keep_original_ws(s, tag_s)`: keep an original whitespace
character where the tag is a space, elementwise over `zip(s, tag_s)`. -/
def keepOriginalWs (s tags : String) : String :=
  String.mk ((s.data.zip tags.data).map fun ct =>
    if ct.2 = ' ' && pyIsSpace ct.1 then ct.1 else ct.2)

/-- `Differ._qformat(aline, bline, atags, btags)`: the `- `/`+ ` pair with
optional `? ` guide lines (guide lines end in a newline). -/
def qformat (aline bline atags btags : String) : List String :=
  let at2 := pyRstrip (keepOriginalWs aline atags)
  let bt2 := pyRstrip (keepOriginalWs bline btags)
  ["- " ++ aline] ++
    (if at2 = "" then [] else ["? " ++ at2 ++ "\n"]) ++
    ["+ " ++ bline] ++
    (if bt2 = "" then [] else ["? " ++ bt2 ++ "\n"])

/-- The scan state of `_fancy_replace`: the best ratio so far (exact
fraction), the pair that attained it, and the first identical pair. -/
structure FancyState where
  bestRatio : Nat × Nat
  best : Option (Nat × Nat)
  eqPair : Option (Nat × Nat)

/-- `best_ratio, cutoff = 0.74, 0.75` — the initial scan state (exact
fraction model of the float constants, see the header). -/
def fancyInit : FancyState := ⟨(74, 100), none, none⟩

/-- Inner loop of the `_fancy_replace` scan over `i in range(alo, ahi)` for
a fixed `j`: an identical pair is remembered once and skipped, otherwise a
strictly better ratio updates the best pair. -/
def fancyScanI (a b : List String) (j : Nat) : List Nat → FancyState → FancyState
  | [], st => st
  | i :: rest, st =>
    let st2 :=
      match a[i]?, b[j]? with
      | some ai, some bj =>
        if ai = bj then
          if st.eqPair = none then { st with eqPair := some (i, j) } else st
        else
          let r := calcRatio charJunkParams ai.data bj.data
          if fracLt st.bestRatio r then { st with bestRatio := r, best := some (i, j) } else st
      | _, _ => st
    fancyScanI a b j rest st2

/-- Outer loop of the `_fancy_replace` scan over `j in range(blo, bhi)`. -/
def fancyScanJ (a b : List String) (alo ahi : Nat) : List Nat → FancyState → FancyState
  | [], st => st
  | j :: rest, st =>
    fancyScanJ a b alo ahi rest (fancyScanI a b j (List.range' alo (ahi - alo)) st)

/-- The decision after the `_fancy_replace` scan: below the cutoff fall back
to the identical pair (synch with an equal line) or `_plain_replace`;
otherwise take the best pair (synch with a `- `/`+ ` quad). -/
def fancyChoose (st : FancyState) : Option (Nat × Nat × Bool) :=
  if fracLt st.bestRatio (3, 4) then
    match st.eqPair with
    | none => none
    | some ij => some (ij.1, ij.2, true)
  else
    match st.best with
    | some ij => some (ij.1, ij.2, false)
    | none => none

/-- `Differ._fancy_replace` merged with `Differ._fancy_helper` (the helper
only dispatches on empty ranges: `a`-side first).  The fuel dominates the
recursion depth, which shrinks with the region size on every call. -/
def fancyReplaceFuel (a b : List String) :
    Nat → Nat → Nat → Nat → Nat → List String
  | 0, _, _, _, _ => []
  | fuel + 1, alo, ahi, blo, bhi =>
    if ahi ≤ alo then (if bhi ≤ blo then [] else dump "+" b blo bhi)
    else if bhi ≤ blo then dump "-" a alo ahi
    else
      let st := fancyScanJ a b alo ahi (List.range' blo (bhi - blo)) fancyInit
      match fancyChoose st with
      | none => plainReplace a b alo ahi blo bhi
      | some (bi, bj, ident) =>
        let aelt := a.getD bi ""
        let belt := b.getD bj ""
        let sync :=
          if ident then ["  " ++ aelt]
          else
            let tags := intralineTags aelt.data belt.data
            qformat aelt belt tags.1 tags.2
        fancyReplaceFuel a b fuel alo bi blo bj ++ sync ++
          fancyReplaceFuel a b fuel (bi + 1) ahi (bj + 1) bhi

/-- The lines one opcode of `Differ.compare` expands to: dump
equal/delete/insert regions, expand replace regions through
`_fancy_replace`. -/
def renderOp (a b : List String) (op : OpTag × Nat × Nat × Nat × Nat) : List String :=
  match op.1 with
  | OpTag.replace =>
    fancyReplaceFuel a b (a.length + b.length + 1) op.2.1 op.2.2.1 op.2.2.2.1 op.2.2.2.2
  | OpTag.delete => dump "-" a op.2.1 op.2.2.1
  | OpTag.insert => dump "+" b op.2.2.2.1 op.2.2.2.2
  | OpTag.equal => dump " " a op.2.1 op.2.2.1

/-- `difflib.Differ().compare(a, b)` on two token lists: walk the line-level
opcodes and concatenate the lines of each. -/
def differCompare (a b : List String) : List String :=
  ((getOpcodes lineJunkParams a b).map (renderOp a b)).flatten

/-! ## src/app.py and src/src/app.py: metrics engine -/

/-- `calculate_edit_distance(original, edited)` (src/app.py 25-33,
src/src/app.py 25-33): count the diff lines starting with `'+'` and with
`'-'` over the whitespace-split token lists. -/
def calculate_edit_distance (original edited : String) : Nat × Nat :=
  let diff := differCompare (pySplit original) (pySplit edited)
  ((diff.filter fun d => pyStartswith d "+").length,
   (diff.filter fun d => pyStartswith d "-").length)

/-- The `html_parts` list built by `highlight_differences` (src/app.py
59-73): one span per `'  '`/`'- '`/`'+ '` diff line, other lines skipped. -/
def highlightParts (original edited : String) : List String :=
  (differCompare (pySplit original) (pySplit edited)).filterMap fun word =>
    if pyStartswith word "  " then some ("<span>" ++ strDrop word 2 ++ "</span>")
    else if pyStartswith word "- " then
      some ("<span style=\"background-color: #ffcdd2\">" ++ strDrop word 2 ++ "</span>")
    else if pyStartswith word "+ " then
      some ("<span style=\"background-color: #c8e6c9\">" ++ strDrop word 2 ++ "</span>")
    else none

/-- `highlight_differences(original, edited)`: the joined markup string. -/
def highlight_differences (original edited : String) : String :=
  String.intercalate " " (highlightParts original edited)

/-! ## Navigator state (Streamlit session state of both app variants) -/

/-- The `EditMetrics` dataclass (src/app.py 15-23). -/
structure EditMetrics where
  segment_id : Nat
  original : String
  edited : String
  edit_time : ℚ
  insertions : Nat
  deletions : Nat
deriving DecidableEq

/-- The session state of `init_session_state` (src/app.py 43-52):
`current_segment`, `segments`, `edit_metrics`, `start_time`. -/
structure SessionState where
  current_segment : Nat
  segments : List String
  edit_metrics : List EditMetrics
  start_time : Option ℚ
deriving DecidableEq

/-- The state right after a corpus is loaded into a fresh session
(`init_session_state` followed by `st.session_state.segments = ...`). -/
def initSession (segments : List String) : SessionState :=
  ⟨0, segments, [], none⟩

/-- `save_metrics(original, edited)` (src/app.py 203-220, src/src/app.py
204-221): a no-op when `start_time is None`, otherwise append one
`EditMetrics` for the current segment with `edit_time = now - start_time`. -/
def save_metrics (now : ℚ) (original edited : String) (s : SessionState) : SessionState :=
  match s.start_time with
  | none => s
  | some t0 =>
    let ed := calculate_edit_distance original edited
    { s with edit_metrics := s.edit_metrics ++
        [⟨s.current_segment, original, edited, now - t0, ed.1, ed.2⟩] }

/-- The render-time timer start (src/app.py 135-136): `if start_time is
None: start_time = time.time()`. -/
def renderStart (now : ℚ) (s : SessionState) : SessionState :=
  if s.start_time = none then { s with start_time := some now } else s

/-- One user action on the post-editing page: the Next button (advance), the
Previous button (retreat), or picking an index in the segment-select
dropdown (jump).  Button events carry the timestamp of the render that
displayed the segment and the timestamp of the click. -/
inductive NavEvent where
  | next (edited : String) (renderTime clickTime : ℚ)
  | prev (edited : String) (renderTime clickTime : ℚ)
  | select (target : Nat)

/-- The effect of one user action on the session state, from `main` of both
app variants (src/app.py 114-166, src/src/app.py 110-167):

* `next`: available only while an active segment is displayed (in
  src/app.py the button is disabled at `current_segment >= len(segments)`;
  in src/src/app.py `main` returns to the results page before rendering the
  editor).  It runs `save_metrics(current_text, edited_text)`, increments
  `current_segment` and clears `start_time`.
* `prev`: additionally disabled at `current_segment == 0`; it decrements
  `current_segment` after saving and clears `start_time`.
* `select`: the dropdown assigns `current_segment = segment_idx` for a
  target inside `range(len(segments))` — it neither calls `save_metrics`
  nor touches `start_time`. -/
def navStep (s : SessionState) : NavEvent → SessionState
  | NavEvent.next edited tr tc =>
    if s.segments.length ≤ s.current_segment then s
    else
      let s1 := renderStart tr s
      let cur := s1.segments.getD s1.current_segment ""
      let s2 := save_metrics tc cur edited s1
      { s2 with current_segment := s2.current_segment + 1, start_time := none }
  | NavEvent.prev edited tr tc =>
    if s.current_segment = 0 || s.segments.length ≤ s.current_segment then s
    else
      let s1 := renderStart tr s
      let cur := s1.segments.getD s1.current_segment ""
      let s2 := save_metrics tc cur edited s1
      { s2 with current_segment := s2.current_segment - 1, start_time := none }
  | NavEvent.select target =>
    if s.segments.length ≤ s.current_segment || s.segments.length ≤ target then s
    else { s with current_segment := target }

/-- Folding a sequence of user actions over the session state. -/
def runEvents (s : SessionState) (es : List NavEvent) : SessionState :=
  es.foldl navStep s

/-- Validity of one action in a state: the guards under which the hosting
page actually offers the action to the operator. -/
def validEvent (s : SessionState) : NavEvent → Prop
  | NavEvent.next _ _ _ => s.current_segment < s.segments.length
  | NavEvent.prev _ _ _ => 0 < s.current_segment ∧ s.current_segment < s.segments.length
  | NavEvent.select t => s.current_segment < s.segments.length ∧ t < s.segments.length

/-- Validity of a whole action sequence (each action valid in the state it
is issued from). -/
def validChain : SessionState → List NavEvent → Prop
  | _, [] => True
  | s, e :: es => validEvent s e ∧ validChain (navStep s e) es

/-- Advance/retreat actions (the button transitions, as opposed to the
dropdown jump). -/
def isMoveEvent : NavEvent → Prop
  | NavEvent.next _ _ _ => True
  | NavEvent.prev _ _ _ => True
  | NavEvent.select _ => False

/-! ## Session aggregation and export (display_results of both variants) -/

/-- The summary statistics of `display_results` (src/app.py 222-248):
`len(df)`, `df['edit_time'].sum()`, `df['edit_time'].mean()`,
`df['insertions'].sum()`, `df['deletions'].sum()`. -/
structure SessionSummary where
  total_segments : Nat
  total_time : ℚ
  average_time : ℚ
  total_insertions : Nat
  total_deletions : Nat
deriving DecidableEq

/-- The aggregation of `display_results` as a function of the records
sequence (rational division by zero is `0`; the app only aggregates
non-empty records). -/
def summarize (records : List EditMetrics) : SessionSummary :=
  ⟨records.length,
   (records.map fun m => m.edit_time).sum,
   (records.map fun m => m.edit_time).sum / (records.length : ℚ),
   (records.map fun m => m.insertions).sum,
   (records.map fun m => m.deletions).sum⟩

/-- Column list of the CSV produced by src/app.py 254 (`pd.DataFrame` over
`vars(m)` keeps the dataclass field order). -/
def csvColumnsMain : List String :=
  ["segment_id", "original", "edited", "edit_time", "insertions", "deletions"]

/-- Rows of the src/app.py CSV: one row per record, dataclass field order. -/
def csvRowsMain (records : List EditMetrics) :
    List (Nat × String × String × ℚ × Nat × Nat) :=
  records.map fun m =>
    (m.segment_id, m.original, m.edited, m.edit_time, m.insertions, m.deletions)

/-- Column list of the CSV produced by src/src/app.py 259: the variant runs
`df = df.drop(columns=["segment_id"])` (line 227) before exporting. -/
def csvColumnsAlt : List String :=
  ["original", "edited", "edit_time", "insertions", "deletions"]

/-- Rows of the src/src/app.py CSV (no `segment_id`). -/
def csvRowsAlt (records : List EditMetrics) :
    List (String × String × ℚ × Nat × Nat) :=
  records.map fun m => (m.original, m.edited, m.edit_time, m.insertions, m.deletions)

/-- Reconstruction of a record from one src/app.py CSV row (witnessing that
the projection is lossless). -/
def csvRowToMetrics (row : Nat × String × String × ℚ × Nat × Nat) : EditMetrics :=
  ⟨row.1, row.2.1, row.2.2.1, row.2.2.2.1, row.2.2.2.2.1, row.2.2.2.2.2⟩

/-- JSON values appearing in the export (strings, integers, numbers). -/
inductive JValue where
  | jstr (s : String)
  | jnat (n : Nat)
  | jrat (q : ℚ)
deriving DecidableEq

/-- Round-half-to-even on rationals (the rounding mode of Python's
`round`). -/
def roundHalfEven (q : ℚ) : ℤ :=
  if q - ⌊q⌋ < 1 / 2 then ⌊q⌋
  else if (1 : ℚ) / 2 < q - ⌊q⌋ then ⌊q⌋ + 1
  else if 2 ∣ ⌊q⌋ then ⌊q⌋ else ⌊q⌋ + 1

/-- Python `round(x, 2)` (exact rational model of the float rounding). -/
def pyRound2 (q : ℚ) : ℚ := (roundHalfEven (q * 100) : ℚ) / 100

/-- The JSON export of both variants (src/app.py 264-273, src/src/app.py
267-277): one object per record with keys `segment_id`, `source`,
`post_edited`, `edit_time_seconds` (rounded to 2 decimals), `insertions`,
`deletions`. -/
def jsonExport (records : List EditMetrics) : List (List (String × JValue)) :=
  records.map fun m =>
    [("segment_id", JValue.jnat m.segment_id),
     ("source", JValue.jstr m.original),
     ("post_edited", JValue.jstr m.edited),
     ("edit_time_seconds", JValue.jrat (pyRound2 m.edit_time)),
     ("insertions", JValue.jnat m.insertions),
     ("deletions", JValue.jnat m.deletions)]

/-! ## Evaluation page (src/pages/3_Evaluation.py) -/

/-- Outcome of the guard sequence before `calculate_metrics` is reached. -/
inductive EvalOutcome where
  | errorNoPostEdited (msg : String)
  | errorMismatch (msg : String)
  | scored (references hypotheses : List String)
deriving DecidableEq

/-- The error text of the length guard (main, lines 162-163). -/
def mismatchMessage (nrefs npost : Nat) : String :=
  "Number of reference translations (" ++ toString nrefs ++
    ") does not match number of post-edited translations (" ++ toString npost ++ ")"

/-- The guard sequence of `main` in src/pages/3_Evaluation.py (lines
152-168): an empty post-edited list errors out first; then unequal
reference/post-edited counts error out; only then may `calculate_metrics`
run on the two aligned lists. -/
def evaluationFlow (selectedUser : String) (references postEdited : List String) :
    EvalOutcome :=
  if postEdited = [] then
    EvalOutcome.errorNoPostEdited
      ("No post-edited translations found for " ++ selectedUser ++ ".")
  else if references.length ≠ postEdited.length then
    EvalOutcome.errorMismatch (mismatchMessage references.length postEdited.length)
  else EvalOutcome.scored references postEdited

/-! ## The worked scenario of the spec (§8) -/

/-- The two-segment corpus of the spec's worked scenario. -/
def scenarioSegments : List String := ["The cat sat.", "It was sunny."]

/-- The scenario run: segment 0 edited to "The cat sat on the mat." and
advanced after 5 seconds, segment 1 advanced unchanged after 2 more. -/
def scenarioFinal : SessionState :=
  runEvents (initSession scenarioSegments)
    [NavEvent.next "The cat sat on the mat." 0 5,
     NavEvent.next "It was sunny." 5 7]

/-! ## Views of the diff output used in the statements below -/

/-- Diff lines carrying an original-side token: `'  '` (unchanged) and
`'- '` (removed). -/
def isASide (w : String) : Bool := pyStartswith w "  " || pyStartswith w "- "

/-- Diff lines carrying an edited-side token: `'  '` (unchanged) and
`'+ '` (added). -/
def isBSide (w : String) : Bool := pyStartswith w "  " || pyStartswith w "+ "

/-- The tokens of the selected diff lines, in order. -/
def sideTokens (sel : String → Bool) (L : List String) : List String :=
  (L.filter sel).map fun w => strDrop w 2

/-- Marking of one fragment of the highlighted rendering. -/
inductive FragTag where
  | unchanged
  | removed
  | added
deriving DecidableEq

/-- The fragments of `highlight_differences` as (marking, token) pairs: the
renderer walks the diff lines and wraps each `'  '`/`'- '`/`'+ '` token in a
plain/removed/added span, skipping `'? '` guide lines. -/
def diffFragments (original edited : String) : List (FragTag × String) :=
  (differCompare (pySplit original) (pySplit edited)).filterMap fun word =>
    if pyStartswith word "  " then some (FragTag.unchanged, strDrop word 2)
    else if pyStartswith word "- " then some (FragTag.removed, strDrop word 2)
    else if pyStartswith word "+ " then some (FragTag.added, strDrop word 2)
    else none

/-- The span markup a tagged fragment is rendered as. -/
def fragSpan (f : FragTag × String) : String :=
  match f.1 with
  | FragTag.unchanged => "<span>" ++ f.2 ++ "</span>"
  | FragTag.removed => "<span style=\"background-color: #ffcdd2\">" ++ f.2 ++ "</span>"
  | FragTag.added => "<span style=\"background-color: #c8e6c9\">" ++ f.2 ++ "</span>"

/-- Shape of every line `Differ.compare` emits: a tag character among
`' '`, `'-'`, `'+'`, `'?'`, a space, and the rest. -/
def lineShaped (w : String) : Prop :=
  ∃ c rest, w.data = c :: ' ' :: rest ∧ (c = ' ' ∨ c = '-' ∨ c = '+' ∨ c = '?')

/-- Well-formedness of a matching-block list against the ranges it was
computed for: blocks are in order, disjoint, inside the ranges, nonempty,
and each matches equal slices of `a` and `b`. -/
def blocksOK {α : Type} (a b : List α) : Nat → Nat → Nat → Nat → List (Nat × Nat × Nat) → Prop
  | _, _, _, _, [] => True
  | alo, ahi, blo, bhi, (i, j, k) :: rest =>
    alo ≤ i ∧ i + k ≤ ahi ∧ blo ≤ j ∧ j + k ≤ bhi ∧ 1 ≤ k ∧
      listSlice a i (i + k) = listSlice b j (j + k) ∧ blocksOK a b (i + k) ahi (j + k) bhi rest

/-- Well-formedness of an opcode list against a cursor `(i, j)`: opcodes
tile `[i, len a) × [j, len b)` in order, `equal` opcodes match equal
slices, `delete`/`insert` opcodes are one-sided, `replace` opcodes are
two-sided. -/
def opsOK {α : Type} (a b : List α) : Nat → Nat → List (OpTag × Nat × Nat × Nat × Nat) → Prop
  | i, j, [] => i = a.length ∧ j = b.length
  | i, j, (tag, a1, a2, b1, b2) :: rest =>
    a1 = i ∧ b1 = j ∧ a1 ≤ a2 ∧ b1 ≤ b2 ∧ a2 ≤ a.length ∧ b2 ≤ b.length ∧
      (match tag with
       | OpTag.equal => listSlice a a1 a2 = listSlice b b1 b2
       | OpTag.delete => b1 = b2
       | OpTag.insert => a1 = a2
       | OpTag.replace => a1 < a2 ∧ b1 < b2) ∧
      opsOK a b a2 b2 rest

/-- The projection facts carried through the `_fancy_replace` recursion:
the selected lines of `L` recover the `a`-side and `b`-side slices, and
every line of `L` is shaped. -/
def linesProject (a b : List String) (alo ahi blo bhi : Nat) (L : List String) : Prop :=
  sideTokens isASide L = listSlice a alo ahi ∧
    sideTokens isBSide L = listSlice b blo bhi ∧ ∀ w ∈ L, lineShaped w


/-- Validity of a candidate best match of `find_longest_match` against its
ranges: an empty candidate inside the ranges, or an in-range match of equal
slices. -/
def bestOK {α : Type} (a b : List α) (alo ahi blo bhi : Nat) (best : Nat × Nat × Nat) : Prop :=
  (best.2.2 = 0 ∧ alo ≤ best.1 ∧ best.1 ≤ ahi ∧ blo ≤ best.2.1 ∧ best.2.1 ≤ bhi) ∨
    (1 ≤ best.2.2 ∧ alo ≤ best.1 ∧ best.1 + best.2.2 ≤ ahi ∧ blo ≤ best.2.1 ∧
      best.2.1 + best.2.2 ≤ bhi ∧
      listSlice a best.1 (best.1 + best.2.2) = listSlice b best.2.1 (best.2.1 + best.2.2))

/-- Validity of one `j2len` entry `(j, k)` of the `find_longest_match`
dynamic program, for the row whose exclusive end in `a` is `iEnd`: a common
run of length `k` ending at `(iEnd, j + 1)` inside the ranges. -/
def rowCell {α : Type} (a b : List α) (alo blo bhi iEnd : Nat) (e : Nat × Nat) : Prop :=
  1 ≤ e.2 ∧ e.2 ≤ iEnd ∧ e.2 ≤ e.1 + 1 ∧ alo + e.2 ≤ iEnd ∧ blo + e.2 ≤ e.1 + 1 ∧
    e.1 < bhi ∧ listSlice a (iEnd - e.2) iEnd = listSlice b (e.1 + 1 - e.2) (e.1 + 1)

/-- Invariant of the `_fancy_replace` scan state: a missing best pair means
the ratio is still the initial `0.74`, and the recorded pairs lie in the
scanned ranges (the identical pair with equal elements). -/
def scanInv (a b : List String) (alo ahi blo bhi : Nat) (st : FancyState) : Prop :=
  (st.best = none → st.bestRatio = (74, 100)) ∧
    (∀ ij : Nat × Nat, st.best = some ij →
      alo ≤ ij.1 ∧ ij.1 < ahi ∧ blo ≤ ij.2 ∧ ij.2 < bhi) ∧
    (∀ ij : Nat × Nat, st.eqPair = some ij →
      (alo ≤ ij.1 ∧ ij.1 < ahi ∧ blo ≤ ij.2 ∧ ij.2 < bhi) ∧
        ∃ x, a[ij.1]? = some x ∧ b[ij.2]? = some x)

/-! # Theorems -/

/-! ## List-slice lemmas -/

theorem listSlice_full {α : Type} (l : List α) : listSlice l 0 l.length = l := by
  simp [listSlice]

theorem listSlice_nil {α : Type} (l : List α) (lo hi : Nat) (h : hi ≤ lo) :
    listSlice l lo hi = [] := by
  simp [listSlice, Nat.sub_eq_zero_of_le h]

theorem listSlice_append {α : Type} (l : List α) (lo mid hi : Nat)
    (h1 : lo ≤ mid) (h2 : mid ≤ hi) :
    listSlice l lo mid ++ listSlice l mid hi = listSlice l lo hi := by
  unfold listSlice
  rw [show l.drop mid = (l.drop lo).drop (mid - lo) by
    rw [List.drop_drop]; congr 1; omega]
  rw [← List.take_add]
  congr 1
  omega

theorem listSlice_cons {α : Type} (l : List α) (lo hi : Nat)
    (h1 : lo < hi) (h2 : lo < l.length) :
    listSlice l lo hi = l[lo] :: listSlice l (lo + 1) hi := by
  unfold listSlice
  rw [List.drop_eq_getElem_cons h2, show hi - lo = (hi - (lo + 1)) + 1 by omega,
    List.take_succ_cons]

theorem listSlice_one {α : Type} (l : List α) (lo : Nat) (h2 : lo < l.length) :
    listSlice l lo (lo + 1) = [l[lo]] := by
  rw [listSlice_cons l lo (lo + 1) (by omega) h2, listSlice_nil l (lo + 1) (lo + 1) le_rfl]

theorem listSlice_len {α : Type} (l : List α) (lo hi : Nat)
    (h1 : lo ≤ hi) (h2 : hi ≤ l.length) :
    (listSlice l lo hi).length = hi - lo := by
  simp [listSlice]
  omega

/-! ## C10: save_metrics frame conditions -/

/-- C10: with no timer running (`start_time is None`) `save_metrics` is a
complete no-op; with a timer running it appends exactly one record, whose
`segment_id` is the current segment index, and changes nothing else. -/
theorem C10_save_metrics_frame (now : ℚ) (original edited : String) (cs : Nat)
    (segs : List String) (ms : List EditMetrics) (t0 : ℚ) :
    save_metrics now original edited ⟨cs, segs, ms, none⟩ = ⟨cs, segs, ms, none⟩ ∧
    save_metrics now original edited ⟨cs, segs, ms, some t0⟩ =
      ⟨cs, segs,
        ms ++ [⟨cs, original, edited, now - t0,
          (calculate_edit_distance original edited).1,
          (calculate_edit_distance original edited).2⟩],
        some t0⟩ :=
  ⟨rfl, rfl⟩

/-! ## C4: rejected transitions leave the state unchanged -/

/-- C4: an advance attempted in the Complete state
(`current_index == N`) and a retreat attempted at `current_index == 0` are
both rejected, leaving records, current index and timer untouched. -/
theorem C4_rejections_keep_state (segs : List String) (ms : List EditMetrics)
    (t : Option ℚ) (edited : String) (tr tc : ℚ) :
    navStep ⟨segs.length, segs, ms, t⟩ (NavEvent.next edited tr tc) =
      ⟨segs.length, segs, ms, t⟩ ∧
    navStep ⟨0, segs, ms, t⟩ (NavEvent.prev edited tr tc) = ⟨0, segs, ms, t⟩ := by
  constructor
  · simp [navStep]
  · simp [navStep]

/-! ## C2: jump navigation -/

/-- C2 (amended): selecting a target segment from the dropdown while a
segment is active sets the current index to the target and does nothing
else — no `EditRecord` is appended and the timer is not restarted. -/
theorem C2_jump_sets_index_only (s : SessionState) (target : Nat)
    (h1 : s.current_segment < s.segments.length) (h2 : target < s.segments.length) :
    navStep s (NavEvent.select target) = { s with current_segment := target } := by
  simp only [navStep]
  rw [if_neg]
  simp [h1, h2, Nat.not_le.mpr h1, Nat.not_le.mpr h2]

/-- Witness for C2_jump_sets_index_only at a concrete state. -/
theorem C2_jump_sets_index_only_witness :
    navStep ⟨0, ["a", "b"], [], some 0⟩ (NavEvent.select 1) = ⟨1, ["a", "b"], [], some 0⟩ :=
  C2_jump_sets_index_only ⟨0, ["a", "b"], [], some 0⟩ 1 (by decide) (by decide)

/-- C2 counterexample: on a concrete active state, the dropdown jump
appends no record and leaves the timer running, contradicting the claim
that it records metrics exactly as advance/retreat do and restarts the
timer. -/
theorem C2_jump_counterexample :
    (navStep ⟨0, ["a", "b"], [], some 0⟩ (NavEvent.select 1)).edit_metrics = [] ∧
    (navStep ⟨0, ["a", "b"], [], some 0⟩ (NavEvent.select 1)).start_time = some 0 ∧
    ¬ (navStep ⟨0, ["a", "b"], [], some 0⟩ (NavEvent.select 1)).edit_metrics.length =
        (⟨0, ["a", "b"], [], some 0⟩ : SessionState).edit_metrics.length + 1 := by
  refine ⟨rfl, rfl, ?_⟩
  intro h
  rw [show (navStep ⟨0, ["a", "b"], [], some 0⟩ (NavEvent.select 1)).edit_metrics = [] from rfl,
    show (⟨0, ["a", "b"], [], some 0⟩ : SessionState).edit_metrics = [] from rfl] at h
  simp at h

/-! ## C3: one record per transition -/

theorem navStep_move_appends (s : SessionState) (e : NavEvent)
    (hv : validEvent s e) (hm : isMoveEvent e) :
    (navStep s e).edit_metrics.length = s.edit_metrics.length + 1 := by
  cases e with
  | next edited tr tc =>
    have hlt : s.current_segment < s.segments.length := hv
    simp only [navStep]
    rw [if_neg (by omega)]
    cases hst : s.start_time with
    | none => simp [renderStart, hst, save_metrics]
    | some t0 => simp [renderStart, hst, save_metrics]
  | prev edited tr tc =>
    obtain ⟨hp, hlt⟩ : 0 < s.current_segment ∧ s.current_segment < s.segments.length := hv
    simp only [navStep]
    rw [if_neg (by simp; omega)]
    cases hst : s.start_time with
    | none => simp [renderStart, hst, save_metrics]
    | some t0 => simp [renderStart, hst, save_metrics]
  | select t => exact absurd hm (by simp [isMoveEvent])

theorem runEvents_move_records (es : List NavEvent) : ∀ s : SessionState,
    validChain s es → (∀ e ∈ es, isMoveEvent e) →
    (runEvents s es).edit_metrics.length = s.edit_metrics.length + es.length := by
  induction es with
  | nil => intro s _ _; simp [runEvents]
  | cons e es ih =>
    intro s hv hm
    have h1 := navStep_move_appends s e hv.1 (hm e (by simp))
    have h2 := ih (navStep s e) hv.2 fun x hx => hm x (by simp [hx])
    simp only [runEvents, List.foldl_cons, List.length_cons] at h2 ⊢
    omega

/-- C3 (amended): after `load(segments)`, every valid advance or retreat
transition appends exactly one new record — the record count equals the
number of advance/retreat transitions issued (jump transitions are
excluded: they append nothing, see the counterexample). -/
theorem C3_moves_append_one_record_each (segments : List String) (es : List NavEvent)
    (hseg : ∀ seg ∈ segments, seg ≠ "")
    (hv : validChain (initSession segments) es)
    (hm : ∀ e ∈ es, isMoveEvent e) :
    (runEvents (initSession segments) es).edit_metrics.length = es.length := by
  have h := runEvents_move_records es (initSession segments) hv hm
  simpa [initSession] using h

/-- Witness for C3_moves_append_one_record_each on a concrete valid
advance-then-retreat run. -/
theorem C3_moves_append_one_record_each_witness :
    (runEvents (initSession ["a", "b"])
      [NavEvent.next "x" 0 1, NavEvent.prev "y" 1 2]).edit_metrics.length = 2 := by
  apply C3_moves_append_one_record_each
  · decide
  · exact ⟨(by decide : (0 : Nat) < 2), (by decide : (0 : Nat) < 1 ∧ 1 < 2), trivial⟩
  · intro e he
    simp at he
    rcases he with h | h <;> subst h <;> trivial

/-- C3 counterexample: a valid jump transition (dropdown select) appends no
record, so after one transition the record count is 0, not 1. -/
theorem C3_jump_breaks_record_count :
    validChain (initSession ["a", "b"]) [NavEvent.select 1] ∧
    (runEvents (initSession ["a", "b"]) [NavEvent.select 1]).edit_metrics.length = 0 := by
  exact ⟨⟨⟨by decide, by decide⟩, trivial⟩, rfl⟩

/-! ## C7: permutation invariance of the aggregation -/

/-- C7: `summarize` totals (time, insertions, deletions) are invariant
under permuting the records sequence. -/
theorem C7_summarize_perm_invariant (r1 r2 : List EditMetrics) (h : r1.Perm r2) :
    (summarize r1).total_time = (summarize r2).total_time ∧
    (summarize r1).total_insertions = (summarize r2).total_insertions ∧
    (summarize r1).total_deletions = (summarize r2).total_deletions :=
  ⟨(h.map _).sum_eq, (h.map _).sum_eq, (h.map _).sum_eq⟩

/-- Witness for C7_summarize_perm_invariant on a concrete swapped pair. -/
theorem C7_summarize_perm_invariant_witness :
    (summarize [⟨0, "a", "b", 1, 2, 3⟩, ⟨1, "c", "d", 4, 5, 6⟩]).total_time =
      (summarize [⟨1, "c", "d", 4, 5, 6⟩, ⟨0, "a", "b", 1, 2, 3⟩]).total_time ∧
    (summarize [⟨0, "a", "b", 1, 2, 3⟩, ⟨1, "c", "d", 4, 5, 6⟩]).total_insertions =
      (summarize [⟨1, "c", "d", 4, 5, 6⟩, ⟨0, "a", "b", 1, 2, 3⟩]).total_insertions ∧
    (summarize [⟨0, "a", "b", 1, 2, 3⟩, ⟨1, "c", "d", 4, 5, 6⟩]).total_deletions =
      (summarize [⟨1, "c", "d", 4, 5, 6⟩, ⟨0, "a", "b", 1, 2, 3⟩]).total_deletions :=
  C7_summarize_perm_invariant _ _ (List.Perm.swap _ _ _)

/-! ## C8: scoring length guards -/

/-- C8 (amended): scoring is reached only with equal-length aligned lists;
with a non-empty post-edited list of the wrong length the user sees the
length-mismatch error naming both counts; with an empty post-edited list
the "no post-edited translations" error is shown first instead. -/
theorem C8_scoring_length_guards (u : String) (refs pe : List String) :
    (∀ r h, evaluationFlow u refs pe = EvalOutcome.scored r h →
      r = refs ∧ h = pe ∧ refs.length = pe.length) ∧
    (pe ≠ [] → refs.length ≠ pe.length →
      evaluationFlow u refs pe =
        EvalOutcome.errorMismatch (mismatchMessage refs.length pe.length)) ∧
    (pe = [] → evaluationFlow u refs pe =
      EvalOutcome.errorNoPostEdited ("No post-edited translations found for " ++ u ++ ".")) := by
  unfold evaluationFlow
  refine ⟨?_, ?_, ?_⟩
  · intro r h heq
    split at heq
    · cases heq
    · split at heq
      · cases heq
      · cases heq
        refine ⟨rfl, rfl, ?_⟩
        omega
  · intro h1 h2
    rw [if_neg h1, if_pos h2]
  · intro h1
    rw [if_pos h1]

/-- Witness for C8_scoring_length_guards: a concrete 2-vs-1 mismatch. -/
theorem C8_scoring_length_guards_witness :
    evaluationFlow "Ada Lovelace" ["x", "y"] ["z"] =
      EvalOutcome.errorMismatch (mismatchMessage 2 1) :=
  (C8_scoring_length_guards "Ada Lovelace" ["x", "y"] ["z"]).2.1 (by decide) (by decide)

/-- C8 counterexample: with references `["a"]` and no post-edited
translations the lengths differ, yet the surfaced error is the
"no post-edited translations" message, not a length-mismatch naming both
counts. -/
theorem C8_empty_post_edited_counterexample :
    (["a"] : List String).length ≠ ([] : List String).length ∧
    evaluationFlow "Mario Rossi" ["a"] [] =
      EvalOutcome.errorNoPostEdited "No post-edited translations found for Mario Rossi." ∧
    evaluationFlow "Mario Rossi" ["a"] [] ≠
      EvalOutcome.errorMismatch (mismatchMessage 1 0) := by
  refine ⟨by decide, rfl, ?_⟩
  intro h
  simp [evaluationFlow] at h

/-! ## C5: export surfaces -/

/-- C5 counterexample: the src/src/app.py variant drops the `segment_id`
column before the CSV export, so its CSV does not carry the claimed
`segment_id` column (shown on a concrete one-record table). -/
theorem C5_alt_csv_drops_segment_id :
    ("segment_id" ∈ csvColumnsMain) ∧ "segment_id" ∉ csvColumnsAlt ∧
    csvRowsAlt [⟨7, "o", "e", 1, 2, 3⟩] = [("o", "e", 1, 2, 3)] :=
  ⟨by decide, by decide, rfl⟩

/-- C5 (amended): both CSV exports have one row per record — src/app.py
with columns segment_id, original, edited, edit_time, insertions,
deletions (dataclass order, lossless: the records are reconstructible),
src/src/app.py without segment_id — and the JSON export has one object per
record with keys segment_id, source, post_edited, edit_time_seconds
(rounded to 2 decimals), insertions, deletions. -/
theorem C5_export_structure (records : List EditMetrics) :
    csvColumnsMain = ["segment_id", "original", "edited", "edit_time",
      "insertions", "deletions"] ∧
    (csvRowsMain records).length = records.length ∧
    (csvRowsMain records).map csvRowToMetrics = records ∧
    csvColumnsAlt = ["original", "edited", "edit_time", "insertions", "deletions"] ∧
    (csvRowsAlt records).length = records.length ∧
    (jsonExport records).length = records.length ∧
    (jsonExport records).map (fun obj => obj.map Prod.fst) = records.map (fun _ =>
      ["segment_id", "source", "post_edited", "edit_time_seconds",
       "insertions", "deletions"]) ∧
    jsonExport records = records.map (fun m =>
      [("segment_id", JValue.jnat m.segment_id),
       ("source", JValue.jstr m.original),
       ("post_edited", JValue.jstr m.edited),
       ("edit_time_seconds", JValue.jrat (pyRound2 m.edit_time)),
       ("insertions", JValue.jnat m.insertions),
       ("deletions", JValue.jnat m.deletions)]) := by
  refine ⟨rfl, by simp [csvRowsMain], ?_, rfl, by simp [csvRowsAlt],
    by simp [jsonExport], ?_, rfl⟩
  · rw [csvRowsMain, List.map_map,
      show (csvRowToMetrics ∘ fun m : EditMetrics =>
          (m.segment_id, m.original, m.edited, m.edit_time, m.insertions, m.deletions)) = id
        from funext fun m => rfl,
      List.map_id]
  · rw [jsonExport, List.map_map]
    exact rfl

/-! ## C1: the worked scenario -/

/-- C1 counterexample: in the worked scenario the recorded metrics of
segment 0 are 4 insertions and 1 deletion ("sat." and "sat" are different
whitespace tokens, so the differ emits `- sat.` and `+ sat` besides `on`,
`the`, `mat.`), not the claimed 3 insertions and 0 deletions. -/
theorem C1_scenario_counterexample :
    (scenarioFinal.edit_metrics.map fun m => (m.insertions, m.deletions)) = [(4, 1), (0, 0)] ∧
    (scenarioFinal.edit_metrics.map fun m => (m.insertions, m.deletions)) ≠ [(3, 0), (0, 0)] := by
  constructor
  · decide
  · rw [show (scenarioFinal.edit_metrics.map fun m => (m.insertions, m.deletions)) =
      [(4, 1), (0, 0)] by decide]
    decide

/-- C1 (amended): in the worked scenario, `records[0]` has 4 insertions and
1 deletion, `records[1]` is `(2.0s, 0, 0)`, the edit times are 5.0 and 2.0,
and the summary gives `total_segments == 2` and `total_time == 7.0`. -/
theorem C1_scenario_metrics :
    (scenarioFinal.edit_metrics.map fun m => (m.segment_id, m.insertions, m.deletions)) =
      [(0, 4, 1), (1, 0, 0)] ∧
    (scenarioFinal.edit_metrics.map fun m => m.edit_time) = [5, 2] ∧
    (summarize scenarioFinal.edit_metrics).total_segments = 2 ∧
    (summarize scenarioFinal.edit_metrics).total_time = 7 := by
  have hrec : scenarioFinal.edit_metrics =
      [⟨0, "The cat sat.", "The cat sat on the mat.", 5 - 0, 4, 1⟩,
       ⟨1, "It was sunny.", "It was sunny.", 7 - 5, 0, 0⟩] := rfl
  refine ⟨by decide, ?_, by decide, ?_⟩
  · rw [hrec]
    norm_num
  · rw [summarize, hrec]
    norm_num

/-! ## find_longest_match produces in-range equal slices -/

theorem mem_positionsOf {α : Type} [DecidableEq α] {b : List α} {x : α} {j : Nat}
    (h : j ∈ positionsOf b x) : b[j]? = some x := by
  unfold positionsOf at h
  rw [List.mem_filter] at h
  simpa using h.2

theorem mem_b2jOf {α : Type} [DecidableEq α] {p : SMParams α} {b : List α} {x : α} {j : Nat}
    (h : j ∈ b2jOf p b x) : b[j]? = some x := by
  unfold b2jOf at h
  split at h
  · cases h
  · exact mem_positionsOf h

theorem dictGet_mem {d : List (Nat × Nat)} {j k : Nat}
    (h : dictGet d j = k) (hk : k ≠ 0) : (j, k) ∈ d := by
  unfold dictGet at h
  split at h
  · next e heq =>
    have hm := List.mem_of_find?_eq_some heq
    have hp := List.find?_some heq
    simp only [beq_iff_eq] at hp
    obtain ⟨j', k'⟩ := e
    simp only at hp
    subst hp
    cases h
    exact hm
  · exact absurd h.symm hk

theorem flmInner_ok {α : Type} [DecidableEq α] (a b : List α)
    (alo ahi blo bhi : Nat) (hahi : ahi ≤ a.length) (hbhi : bhi ≤ b.length)
    (i : Nat) (hi1 : alo ≤ i) (hi2 : i < ahi)
    (x : α) (hx : a[i]? = some x)
    (j2len : List (Nat × Nat))
    (hold : ∀ e ∈ j2len, rowCell a b alo blo bhi i e) :
    ∀ (js : List Nat) (new : List (Nat × Nat)) (best : Nat × Nat × Nat),
      (∀ j ∈ js, b[j]? = some x) →
      (∀ e ∈ new, rowCell a b alo blo bhi (i + 1) e) →
      bestOK a b alo ahi blo bhi best →
      (∀ e ∈ (flmInner j2len blo bhi i js new best).1,
        rowCell a b alo blo bhi (i + 1) e) ∧
      bestOK a b alo ahi blo bhi (flmInner j2len blo bhi i js new best).2 := by
  have hilen : i < a.length := by omega
  have hai : a[i] = x := by
    rw [List.getElem?_eq_getElem hilen] at hx
    exact Option.some.inj hx
  intro js
  induction js with
  | nil =>
    intro new best _ hnew hbest
    exact ⟨hnew, hbest⟩
  | cons j js ih =>
    intro new best hjs hnew hbest
    have hbj : b[j]? = some x := hjs j (by simp)
    simp only [flmInner]
    by_cases h1 : j < blo
    · rw [if_pos h1]
      exact ih new best (fun jq hjq => hjs jq (by simp [hjq])) hnew hbest
    · rw [if_neg h1]
      by_cases h2 : bhi ≤ j
      · rw [if_pos h2]
        exact ⟨hnew, hbest⟩
      · rw [if_neg h2]
        have hjb : j < bhi := by omega
        have hjlen : j < b.length := by omega
        have hbjget : b[j] = x := by
          rw [List.getElem?_eq_getElem hjlen] at hbj
          exact Option.some.inj hbj
        set k0 := if j = 0 then 0 else dictGet j2len (j - 1) with hk0def
        have hcell : rowCell a b alo blo bhi (i + 1) (j, k0 + 1) := by
          show 1 ≤ k0 + 1 ∧ k0 + 1 ≤ i + 1 ∧ k0 + 1 ≤ j + 1 ∧ alo + (k0 + 1) ≤ i + 1 ∧
            blo + (k0 + 1) ≤ j + 1 ∧ j < bhi ∧
            listSlice a (i + 1 - (k0 + 1)) (i + 1) = listSlice b (j + 1 - (k0 + 1)) (j + 1)
          by_cases hz : k0 = 0
          · refine ⟨by omega, by omega, by omega, by omega, by omega, hjb, ?_⟩
            rw [hz, show i + 1 - (0 + 1) = i from by omega,
              show j + 1 - (0 + 1) = j from by omega]
            rw [listSlice_one a i hilen, listSlice_one b j hjlen, hai, hbjget]
          · have hjne : j ≠ 0 := by
              intro hj0
              rw [hk0def, if_pos hj0] at hz
              exact hz rfl
            have hdg : dictGet j2len (j - 1) = k0 := by
              rw [hk0def, if_neg hjne]
            have hmem := dictGet_mem hdg hz
            have hrc : 1 ≤ k0 ∧ k0 ≤ i ∧ k0 ≤ (j - 1) + 1 ∧ alo + k0 ≤ i ∧
                blo + k0 ≤ (j - 1) + 1 ∧ (j - 1) < bhi ∧
                listSlice a (i - k0) i =
                  listSlice b ((j - 1) + 1 - k0) ((j - 1) + 1) := hold (j - 1, k0) hmem
            obtain ⟨hc1, hc2, hc3, hc4, hc5, hc6, hc7⟩ := hrc
            rw [show j - 1 + 1 = j from by omega] at hc3 hc5 hc7
            refine ⟨by omega, by omega, by omega, by omega, by omega, hjb, ?_⟩
            rw [show i + 1 - (k0 + 1) = i - k0 from by omega,
              show j + 1 - (k0 + 1) = j - k0 from by omega]
            rw [← listSlice_append a (i - k0) i (i + 1) (by omega) (by omega),
              ← listSlice_append b (j - k0) j (j + 1) (by omega) (by omega)]
            rw [listSlice_one a i hilen, listSlice_one b j hjlen, hai, hbjget, hc7]
        have hcell2 : 1 ≤ k0 + 1 ∧ k0 + 1 ≤ i + 1 ∧ k0 + 1 ≤ j + 1 ∧
            alo + (k0 + 1) ≤ i + 1 ∧ blo + (k0 + 1) ≤ j + 1 ∧ j < bhi ∧
            listSlice a (i + 1 - (k0 + 1)) (i + 1) =
              listSlice b (j + 1 - (k0 + 1)) (j + 1) := hcell
        obtain ⟨hd1, hd2, hd3, hd4, hd5, hd6, hd7⟩ := hcell2
        have hbest2 : bestOK a b alo ahi blo bhi
            (if best.2.2 < k0 + 1 then (i + 1 - (k0 + 1), j + 1 - (k0 + 1), k0 + 1)
             else best) := by
          by_cases himp : best.2.2 < k0 + 1
          · rw [if_pos himp]
            refine Or.inr (show 1 ≤ k0 + 1 ∧ alo ≤ i + 1 - (k0 + 1) ∧
              (i + 1 - (k0 + 1)) + (k0 + 1) ≤ ahi ∧ blo ≤ j + 1 - (k0 + 1) ∧
              (j + 1 - (k0 + 1)) + (k0 + 1) ≤ bhi ∧
              listSlice a (i + 1 - (k0 + 1)) ((i + 1 - (k0 + 1)) + (k0 + 1)) =
                listSlice b (j + 1 - (k0 + 1)) ((j + 1 - (k0 + 1)) + (k0 + 1)) from ?_)
            refine ⟨by omega, by omega, by omega, by omega, by omega, ?_⟩
            rw [show (i + 1 - (k0 + 1)) + (k0 + 1) = i + 1 from by omega,
              show (j + 1 - (k0 + 1)) + (k0 + 1) = j + 1 from by omega]
            exact hd7
          · rw [if_neg himp]
            exact hbest
        exact ih ((j, k0 + 1) :: new) _
          (fun jq hjq => hjs jq (by simp [hjq]))
          (by
            intro e he
            rcases List.mem_cons.mp he with he | he
            · rw [he]; exact hcell
            · exact hnew e he)
          hbest2

theorem flmOuter_ok {α : Type} [DecidableEq α] (p : SMParams α) (a b : List α)
    (alo ahi blo bhi : Nat) (hahi : ahi ≤ a.length) (hbhi : bhi ≤ b.length) :
    ∀ (n iCur : Nat) (j2len : List (Nat × Nat)) (best : Nat × Nat × Nat),
      alo ≤ iCur → iCur + n ≤ ahi →
      (∀ e ∈ j2len, rowCell a b alo blo bhi iCur e) →
      bestOK a b alo ahi blo bhi best →
      bestOK a b alo ahi blo bhi
        (flmOuter p a b blo bhi (List.range' iCur n) j2len best) := by
  intro n
  induction n with
  | zero =>
    intro iCur j2len best _ _ _ hb
    exact hb
  | succ n ih =>
    intro iCur j2len best h1 h2 hd hb
    have hiCur : iCur < ahi := by omega
    have hilen : iCur < a.length := by omega
    rw [show List.range' iCur (n + 1) = iCur :: List.range' (iCur + 1) n from rfl]
    simp only [flmOuter]
    rw [List.getElem?_eq_getElem hilen]
    have hin := flmInner_ok a b alo ahi blo bhi hahi hbhi iCur h1 hiCur
      (a[iCur]) (List.getElem?_eq_getElem hilen) j2len hd
      (b2jOf p b (a[iCur])) [] best
      (fun j hj => mem_b2jOf hj) (by intro e he; cases he) hb
    exact ih (iCur + 1) _ _ (by omega) (by omega) hin.1 hin.2

theorem extendLeft_ok {α : Type} [DecidableEq α] (p : SMParams α) (a b : List α)
    (alo ahi blo bhi : Nat) (wantJunk : Bool) (hahi : ahi ≤ a.length)
    (hbhi : bhi ≤ b.length) :
    ∀ (fuel : Nat) (best : Nat × Nat × Nat),
      bestOK a b alo ahi blo bhi best →
      bestOK a b alo ahi blo bhi (extendLeft p a b alo blo wantJunk fuel best) := by
  intro fuel
  induction fuel with
  | zero => intro best hb; exact hb
  | succ fuel ih =>
    intro best hb
    obtain ⟨bi, bj, bs⟩ := best
    simp only [extendLeft]
    cases ha : a[bi - 1]? with
    | none => exact hb
    | some x =>
      cases hbb : b[bj - 1]? with
      | none => exact hb
      | some y =>
        show bestOK a b alo ahi blo bhi
          (if alo < bi ∧ blo < bj ∧ p.junk y = wantJunk ∧ x = y then
            extendLeft p a b alo blo wantJunk fuel (bi - 1, bj - 1, bs + 1)
          else (bi, bj, bs))
        by_cases hcond : alo < bi ∧ blo < bj ∧ p.junk y = wantJunk ∧ x = y
        · rw [if_pos hcond]
          apply ih
          obtain ⟨hc1, hc2, hc3, hc4⟩ := hcond
          have halen : bi - 1 < a.length := (List.getElem?_eq_some.mp ha).1
          have hblen : bj - 1 < b.length := (List.getElem?_eq_some.mp hbb).1
          have hax : a[bi - 1] = x := by
            rw [List.getElem?_eq_getElem halen] at ha
            exact Option.some.inj ha
          have hby : b[bj - 1] = y := by
            rw [List.getElem?_eq_getElem hblen] at hbb
            exact Option.some.inj hbb
          have hb2 : (bs = 0 ∧ alo ≤ bi ∧ bi ≤ ahi ∧ blo ≤ bj ∧ bj ≤ bhi) ∨
              (1 ≤ bs ∧ alo ≤ bi ∧ bi + bs ≤ ahi ∧ blo ≤ bj ∧ bj + bs ≤ bhi ∧
                listSlice a bi (bi + bs) = listSlice b bj (bj + bs)) := hb
          refine Or.inr (show 1 ≤ bs + 1 ∧ alo ≤ bi - 1 ∧ (bi - 1) + (bs + 1) ≤ ahi ∧
            blo ≤ bj - 1 ∧ (bj - 1) + (bs + 1) ≤ bhi ∧
            listSlice a (bi - 1) ((bi - 1) + (bs + 1)) =
              listSlice b (bj - 1) ((bj - 1) + (bs + 1)) from ?_)
          rcases hb2 with ⟨hz, h5, h6, h7, h8⟩ | ⟨h4, h5, h6, h7, h8, h9⟩
          · subst hz
            refine ⟨by omega, by omega, by omega, by omega, by omega, ?_⟩
            rw [show bi - 1 + (0 + 1) = (bi - 1) + 1 from by omega,
              show bj - 1 + (0 + 1) = (bj - 1) + 1 from by omega]
            rw [listSlice_one a (bi - 1) halen, listSlice_one b (bj - 1) hblen]
            rw [hax, hby, hc4]
          · refine ⟨by omega, by omega, by omega, by omega, by omega, ?_⟩
            rw [show bi - 1 + (bs + 1) = bi + bs from by omega,
              show bj - 1 + (bs + 1) = bj + bs from by omega]
            rw [listSlice_cons a (bi - 1) (bi + bs) (by omega) halen,
              listSlice_cons b (bj - 1) (bj + bs) (by omega) hblen]
            rw [show bi - 1 + 1 = bi from by omega, show bj - 1 + 1 = bj from by omega]
            rw [hax, hby, hc4, h9]
        · rw [if_neg hcond]
          exact hb

theorem extendRight_ok {α : Type} [DecidableEq α] (p : SMParams α) (a b : List α)
    (alo ahi blo bhi : Nat) (wantJunk : Bool) (hahi : ahi ≤ a.length)
    (hbhi : bhi ≤ b.length) :
    ∀ (fuel : Nat) (best : Nat × Nat × Nat),
      bestOK a b alo ahi blo bhi best →
      bestOK a b alo ahi blo bhi (extendRight p a b ahi bhi wantJunk fuel best) := by
  intro fuel
  induction fuel with
  | zero => intro best hb; exact hb
  | succ fuel ih =>
    intro best hb
    obtain ⟨bi, bj, bs⟩ := best
    simp only [extendRight]
    cases ha : a[bi + bs]? with
    | none => exact hb
    | some x =>
      cases hbb : b[bj + bs]? with
      | none => exact hb
      | some y =>
        show bestOK a b alo ahi blo bhi
          (if bi + bs < ahi ∧ bj + bs < bhi ∧ p.junk y = wantJunk ∧ x = y then
            extendRight p a b ahi bhi wantJunk fuel (bi, bj, bs + 1)
          else (bi, bj, bs))
        by_cases hcond : bi + bs < ahi ∧ bj + bs < bhi ∧ p.junk y = wantJunk ∧ x = y
        · rw [if_pos hcond]
          apply ih
          obtain ⟨hc1, hc2, hc3, hc4⟩ := hcond
          have halen : bi + bs < a.length := (List.getElem?_eq_some.mp ha).1
          have hblen : bj + bs < b.length := (List.getElem?_eq_some.mp hbb).1
          have hax : a[bi + bs] = x := by
            rw [List.getElem?_eq_getElem halen] at ha
            exact Option.some.inj ha
          have hby : b[bj + bs] = y := by
            rw [List.getElem?_eq_getElem hblen] at hbb
            exact Option.some.inj hbb
          have hb2 : (bs = 0 ∧ alo ≤ bi ∧ bi ≤ ahi ∧ blo ≤ bj ∧ bj ≤ bhi) ∨
              (1 ≤ bs ∧ alo ≤ bi ∧ bi + bs ≤ ahi ∧ blo ≤ bj ∧ bj + bs ≤ bhi ∧
                listSlice a bi (bi + bs) = listSlice b bj (bj + bs)) := hb
          refine Or.inr (show 1 ≤ bs + 1 ∧ alo ≤ bi ∧ bi + (bs + 1) ≤ ahi ∧
            blo ≤ bj ∧ bj + (bs + 1) ≤ bhi ∧
            listSlice a bi (bi + (bs + 1)) = listSlice b bj (bj + (bs + 1)) from ?_)
          rcases hb2 with ⟨hz, h5, h6, h7, h8⟩ | ⟨h4, h5, h6, h7, h8, h9⟩
          · subst hz
            refine ⟨by omega, by omega, by omega, by omega, by omega, ?_⟩
            rw [show bi + (0 + 1) = bi + 1 from by omega,
              show bj + (0 + 1) = bj + 1 from by omega]
            rw [listSlice_one a bi (by omega), listSlice_one b bj (by omega)]
            have hax0 : a[bi] = x := by simpa using hax
            have hby0 : b[bj] = y := by simpa using hby
            rw [hax0, hby0, hc4]
          · refine ⟨by omega, by omega, by omega, by omega, by omega, ?_⟩
            rw [show bi + (bs + 1) = (bi + bs) + 1 from by omega,
              show bj + (bs + 1) = (bj + bs) + 1 from by omega]
            rw [← listSlice_append a bi (bi + bs) (bi + bs + 1) (by omega) (by omega),
              ← listSlice_append b bj (bj + bs) (bj + bs + 1) (by omega) (by omega)]
            rw [listSlice_one a (bi + bs) halen, listSlice_one b (bj + bs) hblen]
            rw [hax, hby, hc4, h9]
        · rw [if_neg hcond]
          exact hb

theorem findLongestMatch_ok {α : Type} [DecidableEq α] (p : SMParams α) (a b : List α)
    (alo ahi blo bhi : Nat) (hahi : ahi ≤ a.length) (hbhi : bhi ≤ b.length)
    (hal : alo ≤ ahi) (hbl : blo ≤ bhi) :
    bestOK a b alo ahi blo bhi (findLongestMatch p a b alo ahi blo bhi) := by
  unfold findLongestMatch
  apply extendRight_ok p a b alo ahi blo bhi true hahi hbhi
  apply extendLeft_ok p a b alo ahi blo bhi true hahi hbhi
  apply extendRight_ok p a b alo ahi blo bhi false hahi hbhi
  apply extendLeft_ok p a b alo ahi blo bhi false hahi hbhi
  have hrange : alo + (ahi - alo) ≤ ahi := by omega
  exact flmOuter_ok p a b alo ahi blo bhi hahi hbhi (ahi - alo) alo [] (alo, blo, 0)
    le_rfl hrange (by intro e he; cases he)
    (Or.inl ⟨rfl, le_rfl, hal, le_rfl, hbl⟩)

/-! ## Matching blocks and opcodes tile the ranges -/

theorem blocksOK_mono {α : Type} (a b : List α) :
    ∀ (l : List (Nat × Nat × Nat)) (alo ahi1 blo bhi1 ahi2 bhi2 : Nat),
      blocksOK a b alo ahi1 blo bhi1 l → ahi1 ≤ ahi2 → bhi1 ≤ bhi2 →
      blocksOK a b alo ahi2 blo bhi2 l := by
  intro l
  induction l with
  | nil => intro alo ahi1 blo bhi1 ahi2 bhi2 _ _ _; trivial
  | cons blk rest ih =>
    obtain ⟨i, j, k⟩ := blk
    intro alo ahi1 blo bhi1 ahi2 bhi2 h h1 h2
    simp only [blocksOK] at h ⊢
    obtain ⟨g1, g2, g3, g4, g5, g6, g7⟩ := h
    exact ⟨g1, by omega, g3, by omega, g5, g6, ih (i + k) ahi1 (j + k) bhi1 ahi2 bhi2 g7 h1 h2⟩

theorem blocksOK_floor_mono {α : Type} (a b : List α)
    (l : List (Nat × Nat × Nat)) (alo1 ahi blo1 bhi alo2 blo2 : Nat)
    (h : blocksOK a b alo1 ahi blo1 bhi l) (h1 : alo2 ≤ alo1) (h2 : blo2 ≤ blo1) :
    blocksOK a b alo2 ahi blo2 bhi l := by
  cases l with
  | nil => trivial
  | cons blk rest =>
    obtain ⟨i, j, k⟩ := blk
    simp only [blocksOK] at h ⊢
    obtain ⟨g1, g2, g3, g4, g5, g6, g7⟩ := h
    exact ⟨by omega, g2, by omega, g4, g5, g6, g7⟩

theorem blocksOK_append {α : Type} (a b : List α) :
    ∀ (l1 l2 : List (Nat × Nat × Nat)) (alo blo mid1 mid2 ahi bhi : Nat),
      blocksOK a b alo mid1 blo mid2 l1 → blocksOK a b mid1 ahi mid2 bhi l2 →
      alo ≤ mid1 → blo ≤ mid2 → mid1 ≤ ahi → mid2 ≤ bhi →
      blocksOK a b alo ahi blo bhi (l1 ++ l2) := by
  intro l1
  induction l1 with
  | nil =>
    intro l2 alo blo mid1 mid2 ahi bhi _ h2 h3 h4 _ _
    exact blocksOK_floor_mono a b l2 mid1 ahi mid2 bhi alo blo h2 h3 h4
  | cons blk rest ih =>
    obtain ⟨i, j, k⟩ := blk
    intro l2 alo blo mid1 mid2 ahi bhi h1 h2 h3 h4 h5 h6
    simp only [blocksOK, List.cons_append] at h1 ⊢
    obtain ⟨g1, g2, g3, g4, g5, g6, g7⟩ := h1
    exact ⟨g1, by omega, g3, by omega, g5, g6,
      ih l2 (i + k) (j + k) mid1 mid2 ahi bhi g7 h2 (by omega) (by omega) h5 h6⟩

theorem matchingBlocksFuel_ok {α : Type} [DecidableEq α] (p : SMParams α) (a b : List α) :
    ∀ (fuel alo ahi blo bhi : Nat),
      (ahi - alo) + (bhi - blo) < fuel →
      ahi ≤ a.length → bhi ≤ b.length → alo ≤ ahi → blo ≤ bhi →
      blocksOK a b alo ahi blo bhi (matchingBlocksFuel p a b fuel alo ahi blo bhi) := by
  intro fuel
  induction fuel with
  | zero => intro alo ahi blo bhi hlt; omega
  | succ fuel ih =>
    intro alo ahi blo bhi hlt hahi hbhi hal hbl
    simp only [matchingBlocksFuel]
    have hm := findLongestMatch_ok p a b alo ahi blo bhi hahi hbhi hal hbl
    set m := findLongestMatch p a b alo ahi blo bhi with hmdef
    obtain ⟨mi, mj, mk⟩ := m
    by_cases hz : mk = 0
    · rw [show ((mi, mj, mk) : Nat × Nat × Nat).2.2 = mk from rfl, if_pos hz]
      trivial
    · rw [show ((mi, mj, mk) : Nat × Nat × Nat).2.2 = mk from rfl, if_neg hz]
      have hm2 : (mk = 0 ∧ alo ≤ mi ∧ mi ≤ ahi ∧ blo ≤ mj ∧ mj ≤ bhi) ∨
          (1 ≤ mk ∧ alo ≤ mi ∧ mi + mk ≤ ahi ∧ blo ≤ mj ∧ mj + mk ≤ bhi ∧
            listSlice a mi (mi + mk) = listSlice b mj (mj + mk)) := hm
      rcases hm2 with ⟨hz2, _⟩ | ⟨k1, k2, k3, k4, k5, k6⟩
      · exact absurd hz2 hz
      · have hleft := ih alo mi blo mj (by omega) (by omega) (by omega) k2 k4
        have hright := ih (mi + mk) ahi (mj + mk) bhi (by omega) hahi hbhi k3 k5
        apply blocksOK_append a b _ _ alo blo mi mj ahi bhi hleft ?_
          k2 k4 (by omega) (by omega)
        exact ⟨le_rfl, k3, le_rfl, k5, k1, k6, hright⟩

theorem getMatchingBlocks_split {α : Type} [DecidableEq α] (p : SMParams α) (a b : List α) :
    ∃ blocks, getMatchingBlocks p a b = blocks ++ [(a.length, b.length, 0)] ∧
      blocksOK a b 0 a.length 0 b.length blocks := by
  refine ⟨mergeAdjacent (0, 0, 0)
    (matchingBlocksFuel p a b (a.length + b.length + 1) 0 a.length 0 b.length), rfl, ?_⟩
  have hin := matchingBlocksFuel_ok p a b (a.length + b.length + 1) 0 a.length 0 b.length
    (by omega) le_rfl le_rfl (by omega) (by omega)
  have hmerge : ∀ (l : List (Nat × Nat × Nat)) (i1 j1 k1 alo blo : Nat),
      blocksOK a b (i1 + k1) a.length (j1 + k1) b.length l →
      alo ≤ i1 → blo ≤ j1 → i1 + k1 ≤ a.length → j1 + k1 ≤ b.length →
      listSlice a i1 (i1 + k1) = listSlice b j1 (j1 + k1) →
      blocksOK a b alo a.length blo b.length (mergeAdjacent (i1, j1, k1) l) := by
    intro l
    induction l with
    | nil =>
      intro i1 j1 k1 alo blo _ h2 h3 h4 h5 h6
      simp only [mergeAdjacent]
      by_cases hk : k1 = 0
      · rw [if_pos hk]; trivial
      · rw [if_neg hk]
        simp only [blocksOK]
        exact ⟨h2, h4, h3, h5, by omega, h6, trivial⟩
    | cons blk rest ih =>
      obtain ⟨i2, j2, k2⟩ := blk
      intro i1 j1 k1 alo blo h1 h2 h3 h4 h5 h6
      simp only [blocksOK] at h1
      obtain ⟨g1, g2, g3, g4, g5, g6, g7⟩ := h1
      simp only [mergeAdjacent]
      by_cases hadj : i1 + k1 = i2 ∧ j1 + k1 = j2
      · rw [if_pos hadj]
        obtain ⟨ha1, ha2⟩ := hadj
        apply ih i1 j1 (k1 + k2) alo blo
        · rw [show i1 + (k1 + k2) = i2 + k2 from by omega,
            show j1 + (k1 + k2) = j2 + k2 from by omega]
          exact g7
        · exact h2
        · exact h3
        · omega
        · omega
        · rw [← listSlice_append a i1 (i1 + k1) (i1 + (k1 + k2)) (by omega) (by omega),
            ← listSlice_append b j1 (j1 + k1) (j1 + (k1 + k2)) (by omega) (by omega)]
          rw [show i1 + (k1 + k2) = i2 + k2 from by omega,
            show j1 + (k1 + k2) = j2 + k2 from by omega, h6, ha1, ha2, g6]
      · rw [if_neg hadj]
        have hrest := ih i2 j2 k2 (i1 + k1) (j1 + k1) g7 g1 g3 (by omega) (by omega) g6
        by_cases hk : k1 = 0
        · rw [if_pos hk]
          rw [List.nil_append]
          exact blocksOK_floor_mono a b _ (i1 + k1) a.length (j1 + k1) b.length alo blo
            hrest (by omega) (by omega)
        · rw [if_neg hk]
          rw [List.singleton_append]
          simp only [blocksOK]
          exact ⟨h2, h4, h3, h5, by omega, h6, hrest⟩
  apply hmerge _ 0 0 0 0 0
  · simpa using hin
  · omega
  · omega
  · simp
  · simp
  · rw [listSlice_nil a 0 0 le_rfl, listSlice_nil b 0 0 le_rfl]

theorem getOpcodesAux_ok {α : Type} (a b : List α) :
    ∀ (blocks : List (Nat × Nat × Nat)) (i j : Nat),
      blocksOK a b i a.length j b.length blocks → i ≤ a.length → j ≤ b.length →
      opsOK a b i j (getOpcodesAux i j (blocks ++ [(a.length, b.length, 0)])) := by
  intro blocks
  induction blocks with
  | nil =>
    intro i j _ hi hj
    simp only [List.nil_append, getOpcodesAux, if_true]
    by_cases h1 : i < a.length ∧ j < b.length
    · rw [if_pos h1]
      simp only [List.append_nil, List.nil_append]
      exact ⟨rfl, rfl, by omega, by omega, by omega, by omega, ⟨h1.1, h1.2⟩, rfl, rfl⟩
    · rw [if_neg h1]
      by_cases h2 : i < a.length
      · rw [if_pos h2]
        have hjb : j = b.length := by omega
        simp only [List.append_nil, List.nil_append]
        exact ⟨rfl, rfl, by omega, by omega, by omega, by omega, hjb, rfl, rfl⟩
      · rw [if_neg h2]
        by_cases h3 : j < b.length
        · rw [if_pos h3]
          have hia : i = a.length := by omega
          simp only [List.append_nil, List.nil_append]
          exact ⟨rfl, rfl, by omega, by omega, by omega, by omega, hia, rfl, rfl⟩
        · rw [if_neg h3]
          simp only [List.append_nil, List.nil_append]
          exact ⟨by omega, by omega⟩
  | cons blk rest ih =>
    obtain ⟨bi, bj, k⟩ := blk
    intro i j h hi hj
    simp only [blocksOK] at h
    obtain ⟨g1, g2, g3, g4, g5, g6, g7⟩ := h
    have hrest := ih (bi + k) (bj + k) g7 (by omega) (by omega)
    simp only [List.cons_append, getOpcodesAux]
    rw [if_neg (by omega : ¬ k = 0)]
    by_cases h1 : i < bi ∧ j < bj
    · rw [if_pos h1]
      simp only [List.singleton_append, List.cons_append, List.nil_append]
      exact ⟨rfl, rfl, by omega, by omega, by omega, by omega, ⟨h1.1, h1.2⟩,
        rfl, rfl, by omega, by omega, by omega, by omega, g6, hrest⟩
    · rw [if_neg h1]
      by_cases h2 : i < bi
      · rw [if_pos h2]
        have hjb : j = bj := by omega
        simp only [List.singleton_append, List.cons_append, List.nil_append]
        exact ⟨rfl, rfl, by omega, by omega, by omega, by omega, hjb,
          rfl, rfl, by omega, by omega, by omega, by omega, g6, hrest⟩
      · rw [if_neg h2]
        by_cases h3 : j < bj
        · rw [if_pos h3]
          have hia : i = bi := by omega
          simp only [List.singleton_append, List.cons_append, List.nil_append]
          exact ⟨rfl, rfl, by omega, by omega, by omega, by omega, hia,
            rfl, rfl, by omega, by omega, by omega, by omega, g6, hrest⟩
        · rw [if_neg h3]
          have hia : i = bi := by omega
          have hjb : j = bj := by omega
          subst hia
          subst hjb
          simp only [List.nil_append]
          exact ⟨rfl, rfl, by omega, by omega, by omega, by omega, g6, hrest⟩

theorem getOpcodes_ok {α : Type} [DecidableEq α] (p : SMParams α) (a b : List α) :
    opsOK a b 0 0 (getOpcodes p a b) := by
  obtain ⟨blocks, heq, hok⟩ := getMatchingBlocks_split p a b
  unfold getOpcodes
  rw [show getMatchingBlocks p a b = blocks ++ [(a.length, b.length, 0)] from heq]
  exact getOpcodesAux_ok a b blocks 0 0 hok (by omega) (by omega)

/-! ## Line shapes and side-token projections -/

theorem startswith_eval2 (w : String) (c : Char) (r : List Char)
    (hw : w.data = c :: ' ' :: r) (d e : Char) (p : String) (hp : p.data = [d, e]) :
    pyStartswith w p = (d == c && e == ' ') := by
  unfold pyStartswith
  rw [hp, hw]
  simp [leadChars]

theorem startswith_eval1 (w : String) (c : Char) (r : List Char)
    (hw : w.data = c :: ' ' :: r) (d : Char) (p : String) (hp : p.data = [d]) :
    pyStartswith w p = (d == c) := by
  unfold pyStartswith
  rw [hp, hw]
  simp [leadChars]

theorem isASide_eval (w : String) (c : Char) (r : List Char)
    (hw : w.data = c :: ' ' :: r) : isASide w = (' ' == c || '-' == c) := by
  unfold isASide
  rw [startswith_eval2 w c r hw ' ' ' ' "  " rfl, startswith_eval2 w c r hw '-' ' ' "- " rfl]
  simp

theorem isBSide_eval (w : String) (c : Char) (r : List Char)
    (hw : w.data = c :: ' ' :: r) : isBSide w = (' ' == c || '+' == c) := by
  unfold isBSide
  rw [startswith_eval2 w c r hw ' ' ' ' "  " rfl, startswith_eval2 w c r hw '+' ' ' "+ " rfl]
  simp

theorem strDrop_eval (w : String) (c : Char) (r : List Char)
    (hw : w.data = c :: ' ' :: r) : strDrop w 2 = String.mk r := by
  unfold strDrop
  rw [hw]
  rfl

theorem sideTokens_append (sel : String → Bool) (l1 l2 : List String) :
    sideTokens sel (l1 ++ l2) = sideTokens sel l1 ++ sideTokens sel l2 := by
  simp [sideTokens, List.filter_append]

theorem sideTokens_singleton (sel : String → Bool) (w : String) :
    sideTokens sel [w] = if sel w then [strDrop w 2] else [] := by
  unfold sideTokens
  cases h : sel w <;> simp [List.filter, h]

theorem sideTokens_map_line (sel : String → Bool) (v : Bool) (c : Char)
    (line : String → String) (hline : ∀ s, (line s).data = c :: ' ' :: s.data)
    (hv : ∀ s : String, sel (line s) = v) (l : List String) :
    sideTokens sel (l.map line) = if v then l else [] := by
  unfold sideTokens
  rw [List.filter_map]
  cases v with
  | false =>
    rw [List.filter_eq_nil_iff.mpr]
    · simp
    · intro s _
      simp [Function.comp, hv s]
  | true =>
    rw [List.filter_eq_self.mpr]
    · rw [List.map_map,
        show ((fun w => strDrop w 2) ∘ line) = id from funext fun s => by
          show strDrop (line s) 2 = s
          unfold strDrop
          rw [hline s]
          rfl]
      simp
    · intro s _
      simp [Function.comp, hv s]

theorem dump_project_minus (x : List String) (lo hi : Nat) :
    sideTokens isASide (dump "-" x lo hi) = listSlice x lo hi ∧
    sideTokens isBSide (dump "-" x lo hi) = [] ∧
    ∀ w ∈ dump "-" x lo hi, lineShaped w := by
  refine ⟨?_, ?_, ?_⟩
  · rw [show dump "-" x lo hi = (listSlice x lo hi).map (fun s => "-" ++ " " ++ s) from rfl,
      sideTokens_map_line isASide true '-' (fun s => "-" ++ " " ++ s) (fun s => rfl)
        (fun s => by
          show isASide ("-" ++ " " ++ s) = true
          rw [isASide_eval ("-" ++ " " ++ s) '-' s.data rfl]
          decide)]
    rfl
  · rw [show dump "-" x lo hi = (listSlice x lo hi).map (fun s => "-" ++ " " ++ s) from rfl,
      sideTokens_map_line isBSide false '-' (fun s => "-" ++ " " ++ s) (fun s => rfl)
        (fun s => by
          show isBSide ("-" ++ " " ++ s) = false
          rw [isBSide_eval ("-" ++ " " ++ s) '-' s.data rfl]
          decide)]
    rfl
  · intro w hw
    obtain ⟨s, _, hws⟩ := List.mem_map.mp hw
    exact ⟨'-', s.data, by rw [← hws]; rfl, Or.inr (Or.inl rfl)⟩

theorem dump_project_plus (x : List String) (lo hi : Nat) :
    sideTokens isASide (dump "+" x lo hi) = [] ∧
    sideTokens isBSide (dump "+" x lo hi) = listSlice x lo hi ∧
    ∀ w ∈ dump "+" x lo hi, lineShaped w := by
  refine ⟨?_, ?_, ?_⟩
  · rw [show dump "+" x lo hi = (listSlice x lo hi).map (fun s => "+" ++ " " ++ s) from rfl,
      sideTokens_map_line isASide false '+' (fun s => "+" ++ " " ++ s) (fun s => rfl)
        (fun s => by
          show isASide ("+" ++ " " ++ s) = false
          rw [isASide_eval ("+" ++ " " ++ s) '+' s.data rfl]
          decide)]
    rfl
  · rw [show dump "+" x lo hi = (listSlice x lo hi).map (fun s => "+" ++ " " ++ s) from rfl,
      sideTokens_map_line isBSide true '+' (fun s => "+" ++ " " ++ s) (fun s => rfl)
        (fun s => by
          show isBSide ("+" ++ " " ++ s) = true
          rw [isBSide_eval ("+" ++ " " ++ s) '+' s.data rfl]
          decide)]
    rfl
  · intro w hw
    obtain ⟨s, _, hws⟩ := List.mem_map.mp hw
    exact ⟨'+', s.data, by rw [← hws]; rfl, Or.inr (Or.inr (Or.inl rfl))⟩

theorem dump_project_space (x : List String) (lo hi : Nat) :
    sideTokens isASide (dump " " x lo hi) = listSlice x lo hi ∧
    sideTokens isBSide (dump " " x lo hi) = listSlice x lo hi ∧
    ∀ w ∈ dump " " x lo hi, lineShaped w := by
  refine ⟨?_, ?_, ?_⟩
  · rw [show dump " " x lo hi = (listSlice x lo hi).map (fun s => " " ++ " " ++ s) from rfl,
      sideTokens_map_line isASide true ' ' (fun s => " " ++ " " ++ s) (fun s => rfl)
        (fun s => by
          show isASide (" " ++ " " ++ s) = true
          rw [isASide_eval (" " ++ " " ++ s) ' ' s.data rfl]
          decide)]
    rfl
  · rw [show dump " " x lo hi = (listSlice x lo hi).map (fun s => " " ++ " " ++ s) from rfl,
      sideTokens_map_line isBSide true ' ' (fun s => " " ++ " " ++ s) (fun s => rfl)
        (fun s => by
          show isBSide (" " ++ " " ++ s) = true
          rw [isBSide_eval (" " ++ " " ++ s) ' ' s.data rfl]
          decide)]
    rfl
  · intro w hw
    obtain ⟨s, _, hws⟩ := List.mem_map.mp hw
    exact ⟨' ', s.data, by rw [← hws]; rfl, Or.inl rfl⟩

theorem qformat_project (aline bline atags btags : String) :
    sideTokens isASide (qformat aline bline atags btags) = [aline] ∧
    sideTokens isBSide (qformat aline bline atags btags) = [bline] ∧
    ∀ w ∈ qformat aline bline atags btags, lineShaped w := by
  unfold qformat
  have hminus : ("- " ++ aline).data = '-' :: ' ' :: aline.data := rfl
  have hplus : ("+ " ++ bline).data = '+' :: ' ' :: bline.data := rfl
  have hga : ∀ t : String, ("? " ++ t ++ "\n").data = '?' :: ' ' :: (t.data ++ ['\n']) :=
    fun t => rfl
  have hA : ∀ t : String, sideTokens isASide (if t = "" then [] else ["? " ++ t ++ "\n"]) = [] := by
    intro t
    split
    · rfl
    · rw [sideTokens_singleton, isASide_eval _ '?' (t.data ++ ['\n']) (hga t)]
      rfl
  have hB : ∀ t : String, sideTokens isBSide (if t = "" then [] else ["? " ++ t ++ "\n"]) = [] := by
    intro t
    split
    · rfl
    · rw [sideTokens_singleton, isBSide_eval _ '?' (t.data ++ ['\n']) (hga t)]
      rfl
  refine ⟨?_, ?_, ?_⟩
  · rw [sideTokens_append, sideTokens_append, sideTokens_append, hA, hA,
      sideTokens_singleton, sideTokens_singleton,
      isASide_eval _ '-' aline.data hminus, isASide_eval _ '+' bline.data hplus,
      strDrop_eval _ '-' aline.data hminus]
    rfl
  · rw [sideTokens_append, sideTokens_append, sideTokens_append, hB, hB,
      sideTokens_singleton, sideTokens_singleton,
      isBSide_eval _ '-' aline.data hminus, isBSide_eval _ '+' bline.data hplus,
      strDrop_eval _ '+' bline.data hplus]
    rfl
  · intro w hw
    have hguide : ∀ t wq : String,
        wq ∈ (if t = "" then ([] : List String) else ["? " ++ t ++ "\n"]) → lineShaped wq := by
      intro t wq hwq
      by_cases ht : t = ""
      · rw [if_pos ht] at hwq
        cases hwq
      · rw [if_neg ht] at hwq
        rw [List.mem_singleton.mp hwq]
        exact ⟨'?', _, hga t, Or.inr (Or.inr (Or.inr rfl))⟩
    rcases List.mem_append.mp hw with hw1 | hw2
    · rcases List.mem_append.mp hw1 with hw3 | hw4
      · rcases List.mem_append.mp hw3 with hw5 | hw6
        · rw [List.mem_singleton.mp hw5]
          exact ⟨'-', aline.data, hminus, Or.inr (Or.inl rfl)⟩
        · exact hguide _ w hw6
      · rw [List.mem_singleton.mp hw4]
        exact ⟨'+', bline.data, hplus, Or.inr (Or.inr (Or.inl rfl))⟩
    · exact hguide _ w hw2

/-! ## The _fancy_replace scan and recursion -/

theorem fancyScanI_inv (a b : List String) (alo ahi blo bhi j : Nat)
    (hj1 : blo ≤ j) (hj2 : j < bhi) :
    ∀ (rows : List Nat) (st : FancyState),
      (∀ i ∈ rows, alo ≤ i ∧ i < ahi) → scanInv a b alo ahi blo bhi st →
      scanInv a b alo ahi blo bhi (fancyScanI a b j rows st) := by
  intro rows
  induction rows with
  | nil => intro st _ h; exact h
  | cons i rows ih =>
    intro st hrows hst
    have hi := hrows i (by simp)
    simp only [fancyScanI]
    apply ih _ fun iq hiq => hrows iq (by simp [hiq])
    cases hA : a[i]? with
    | none => exact hst
    | some ai =>
      cases hB : b[j]? with
      | none => exact hst
      | some bj =>
        show scanInv a b alo ahi blo bhi (if ai = bj then (if st.eqPair = none then { st with eqPair := some (i, j) } else st) else (if fracLt st.bestRatio (calcRatio charJunkParams ai.data bj.data) then { st with bestRatio := calcRatio charJunkParams ai.data bj.data, best := some (i, j) } else st))
        by_cases heq : ai = bj
        · rw [if_pos heq]
          by_cases hnone : st.eqPair = none
          · rw [if_pos hnone]
            obtain ⟨s1, s2, s3⟩ := hst
            refine ⟨s1, s2, ?_⟩
            intro ij hij
            have hij2 : (i, j) = ij := Option.some.inj hij
            rw [← hij2]
            exact ⟨⟨hi.1, hi.2, hj1, hj2⟩, ai, hA, by rw [hB, heq]⟩
          · rw [if_neg hnone]
            exact hst
        · rw [if_neg heq]
          by_cases himp : fracLt st.bestRatio (calcRatio charJunkParams ai.data bj.data)
          · rw [if_pos himp]
            obtain ⟨_, _, s3⟩ := hst
            refine ⟨?_, ?_, s3⟩
            · intro hb
              cases hb
            · intro ij hij
              have hij2 : (i, j) = ij := Option.some.inj hij
              rw [← hij2]
              exact ⟨hi.1, hi.2, hj1, hj2⟩
          · rw [if_neg himp]
            exact hst

theorem fancyScanJ_inv (a b : List String) (alo ahi blo bhi : Nat) :
    ∀ (cols : List Nat) (st : FancyState),
      (∀ j ∈ cols, blo ≤ j ∧ j < bhi) → scanInv a b alo ahi blo bhi st →
      scanInv a b alo ahi blo bhi (fancyScanJ a b alo ahi cols st) := by
  intro cols
  induction cols with
  | nil => intro st _ h; exact h
  | cons j cols ih =>
    intro st hcols hst
    have hj := hcols j (by simp)
    simp only [fancyScanJ]
    apply ih _ fun jq hjq => hcols jq (by simp [hjq])
    apply fancyScanI_inv a b alo ahi blo bhi j hj.1 hj.2 _ st
      (fun i hi => by
        rw [List.mem_range'] at hi
        obtain ⟨t, ht1, ht2⟩ := hi
        omega)
      hst

theorem fancyInit_inv (a b : List String) (alo ahi blo bhi : Nat) :
    scanInv a b alo ahi blo bhi fancyInit :=
  ⟨fun _ => rfl, fun ij h => Option.noConfusion h, fun ij h => Option.noConfusion h⟩

theorem fancyChoose_spec (a b : List String) (alo ahi blo bhi : Nat) (st : FancyState)
    (h : scanInv a b alo ahi blo bhi st) (bi bj : Nat) (ident : Bool)
    (hc : fancyChoose st = some (bi, bj, ident)) :
    (alo ≤ bi ∧ bi < ahi ∧ blo ≤ bj ∧ bj < bhi) ∧
    (ident = true → ∃ x, a[bi]? = some x ∧ b[bj]? = some x) := by
  obtain ⟨s1, s2, s3⟩ := h
  unfold fancyChoose at hc
  split at hc
  · cases heq : st.eqPair with
    | none =>
      rw [heq] at hc
      exact Option.noConfusion hc
    | some ij =>
      rw [heq] at hc
      have h2 : (ij.1, ij.2, true) = (bi, bj, ident) := Option.some.inj hc
      have hbi : ij.1 = bi := congrArg Prod.fst h2
      have hrest : (ij.2, true) = (bj, ident) := congrArg Prod.snd h2
      have hbj : ij.2 = bj := congrArg Prod.fst hrest
      have hid : true = ident := congrArg Prod.snd hrest
      obtain ⟨hr, x, hxa, hxb⟩ := s3 ij heq
      rw [hbi, hbj] at hr
      refine ⟨hr, fun _ => ⟨x, ?_, ?_⟩⟩
      · rw [← hbi]; exact hxa
      · rw [← hbj]; exact hxb
  · cases hbm : st.best with
    | none =>
      rw [hbm] at hc
      exact Option.noConfusion hc
    | some ij =>
      rw [hbm] at hc
      have h2 : (ij.1, ij.2, false) = (bi, bj, ident) := Option.some.inj hc
      have hbi : ij.1 = bi := congrArg Prod.fst h2
      have hrest : (ij.2, false) = (bj, ident) := congrArg Prod.snd h2
      have hbj : ij.2 = bj := congrArg Prod.fst hrest
      have hid : false = ident := congrArg Prod.snd hrest
      have hr := s2 ij hbm
      rw [hbi, hbj] at hr
      refine ⟨hr, fun htrue => ?_⟩
      rw [← hid] at htrue
      exact Bool.noConfusion htrue

theorem plainReplace_project (a b : List String) (alo ahi blo bhi : Nat) :
    linesProject a b alo ahi blo bhi (plainReplace a b alo ahi blo bhi) := by
  unfold plainReplace
  obtain ⟨ma1, ma2, ma3⟩ := dump_project_minus a alo ahi
  obtain ⟨pa1, pa2, pa3⟩ := dump_project_plus b blo bhi
  by_cases h : bhi - blo < ahi - alo
  · rw [if_pos h]
    refine ⟨?_, ?_, ?_⟩
    · rw [sideTokens_append, ma1, pa1, List.nil_append]
    · rw [sideTokens_append, ma2, pa2, List.append_nil]
    · intro w hw
      rcases List.mem_append.mp hw with hw | hw
      · exact pa3 w hw
      · exact ma3 w hw
  · rw [if_neg h]
    refine ⟨?_, ?_, ?_⟩
    · rw [sideTokens_append, ma1, pa1, List.append_nil]
    · rw [sideTokens_append, ma2, pa2, List.nil_append]
    · intro w hw
      rcases List.mem_append.mp hw with hw | hw
      · exact ma3 w hw
      · exact pa3 w hw

theorem fancyReplace_project (a b : List String) :
    ∀ (fuel alo ahi blo bhi : Nat),
      (ahi - alo) + (bhi - blo) < fuel → ahi ≤ a.length → bhi ≤ b.length →
      linesProject a b alo ahi blo bhi (fancyReplaceFuel a b fuel alo ahi blo bhi) := by
  intro fuel
  induction fuel with
  | zero => intro alo ahi blo bhi h; omega
  | succ fuel ih =>
    intro alo ahi blo bhi hfuel hahi hbhi
    simp only [fancyReplaceFuel]
    by_cases h1 : ahi ≤ alo
    · rw [if_pos h1]
      by_cases h2 : bhi ≤ blo
      · rw [if_pos h2]
        refine ⟨?_, ?_, by intro w hw; cases hw⟩
        · rw [listSlice_nil a alo ahi h1]; rfl
        · rw [listSlice_nil b blo bhi h2]; rfl
      · rw [if_neg h2]
        obtain ⟨pa1, pa2, pa3⟩ := dump_project_plus b blo bhi
        exact ⟨by rw [pa1, listSlice_nil a alo ahi h1], by rw [pa2], pa3⟩
    · rw [if_neg h1]
      by_cases h2 : bhi ≤ blo
      · rw [if_pos h2]
        obtain ⟨ma1, ma2, ma3⟩ := dump_project_minus a alo ahi
        exact ⟨by rw [ma1], by rw [ma2, listSlice_nil b blo bhi h2], ma3⟩
      · rw [if_neg h2]
        have hscan : scanInv a b alo ahi blo bhi
            (fancyScanJ a b alo ahi (List.range' blo (bhi - blo)) fancyInit) := by
          apply fancyScanJ_inv a b alo ahi blo bhi _ fancyInit
          · intro j hj
            rw [List.mem_range'] at hj
            obtain ⟨t, ht1, ht2⟩ := hj
            omega
          · exact fancyInit_inv a b alo ahi blo bhi
        cases hch : fancyChoose (fancyScanJ a b alo ahi (List.range' blo (bhi - blo)) fancyInit) with
        | none =>
          exact plainReplace_project a b alo ahi blo bhi
        | some t =>
          obtain ⟨bi, bj, ident⟩ := t
          obtain ⟨⟨hr1, hr2, hr3, hr4⟩, hident⟩ :=
            fancyChoose_spec a b alo ahi blo bhi _ hscan bi bj ident hch
          have hbia : bi < a.length := by omega
          have hbjb : bj < b.length := by omega
          have haelt : a.getD bi "" = a[bi] := List.getD_eq_getElem a "" hbia
          have hbelt : b.getD bj "" = b[bj] := List.getD_eq_getElem b "" hbjb
          have hleft := ih alo bi blo bj (by omega) (by omega) (by omega)
          have hright := ih (bi + 1) ahi (bj + 1) bhi (by omega) hahi hbhi
          obtain ⟨hl1, hl2, hl3⟩ := hleft
          obtain ⟨hg1, hg2, hg3⟩ := hright
          have hsliceA : listSlice a alo bi ++ a[bi] :: listSlice a (bi + 1) ahi =
              listSlice a alo ahi := by
            rw [show a[bi] :: listSlice a (bi + 1) ahi =
                listSlice a bi (bi + 1) ++ listSlice a (bi + 1) ahi from by
              rw [listSlice_one a bi hbia]; rfl]
            rw [listSlice_append a bi (bi + 1) ahi (by omega) (by omega),
              listSlice_append a alo bi ahi (by omega) (by omega)]
          have hsliceB : listSlice b blo bj ++ b[bj] :: listSlice b (bj + 1) bhi =
              listSlice b blo bhi := by
            rw [show b[bj] :: listSlice b (bj + 1) bhi =
                listSlice b bj (bj + 1) ++ listSlice b (bj + 1) bhi from by
              rw [listSlice_one b bj hbjb]; rfl]
            rw [listSlice_append b bj (bj + 1) bhi (by omega) (by omega),
              listSlice_append b blo bj bhi (by omega) (by omega)]
          by_cases hid : ident = true
          · rw [hid]
            obtain ⟨x, hxa, hxb⟩ := hident hid
            have hax : a[bi] = x := by
              rw [List.getElem?_eq_getElem hbia] at hxa
              exact Option.some.inj hxa
            have hbx : b[bj] = x := by
              rw [List.getElem?_eq_getElem hbjb] at hxb
              exact Option.some.inj hxb
            show linesProject a b alo ahi blo bhi
              (fancyReplaceFuel a b fuel alo bi blo bj ++
                ["  " ++ a.getD bi ""] ++ fancyReplaceFuel a b fuel (bi + 1) ahi (bj + 1) bhi)
            have hsd : ("  " ++ a.getD bi "").data = ' ' :: ' ' :: (a.getD bi "").data := rfl
            refine ⟨?_, ?_, ?_⟩
            · rw [sideTokens_append, sideTokens_append, hl1,
                sideTokens_singleton, isASide_eval _ ' ' (a.getD bi "").data hsd,
                strDrop_eval _ ' ' (a.getD bi "").data hsd,
                if_pos (show ((' ' == ' ' || '-' == ' ') = true) from rfl),
                hg1, haelt,
                show String.mk a[bi].data = a[bi] from rfl,
                List.append_assoc, List.singleton_append, hsliceA]
            · rw [sideTokens_append, sideTokens_append, hl2,
                sideTokens_singleton, isBSide_eval _ ' ' (a.getD bi "").data hsd,
                strDrop_eval _ ' ' (a.getD bi "").data hsd,
                if_pos (show ((' ' == ' ' || '+' == ' ') = true) from rfl),
                hg2, haelt,
                show String.mk a[bi].data = a[bi] from rfl,
                hax, ← hbx,
                List.append_assoc, List.singleton_append, hsliceB]
            · intro w hw
              rcases List.mem_append.mp hw with hw | hw
              · rcases List.mem_append.mp hw with hw | hw
                · exact hl3 w hw
                · rw [List.mem_singleton.mp hw]
                  exact ⟨' ', (a.getD bi "").data, hsd, Or.inl rfl⟩
              · exact hg3 w hw
          · rw [show ident = false from by
                cases ident
                · rfl
                · exact absurd rfl hid]
            show linesProject a b alo ahi blo bhi
              (fancyReplaceFuel a b fuel alo bi blo bj ++
                qformat (a.getD bi "") (b.getD bj "")
                  (intralineTags (a.getD bi "").data (b.getD bj "").data).1
                  (intralineTags (a.getD bi "").data (b.getD bj "").data).2 ++
                fancyReplaceFuel a b fuel (bi + 1) ahi (bj + 1) bhi)
            obtain ⟨q1, q2, q3⟩ := qformat_project (a.getD bi "") (b.getD bj "")
              (intralineTags (a.getD bi "").data (b.getD bj "").data).1
              (intralineTags (a.getD bi "").data (b.getD bj "").data).2
            refine ⟨?_, ?_, ?_⟩
            · rw [sideTokens_append, sideTokens_append, hl1, q1, hg1, haelt,
                List.append_assoc, List.singleton_append, hsliceA]
            · rw [sideTokens_append, sideTokens_append, hl2, q2, hg2, hbelt,
                List.append_assoc, List.singleton_append, hsliceB]
            · intro w hw
              rcases List.mem_append.mp hw with hw | hw
              · rcases List.mem_append.mp hw with hw | hw
                · exact hl3 w hw
                · exact q3 w hw
              · exact hg3 w hw

/-! ## The compare output projects onto both inputs -/

theorem opsProject (a b : List String) :
    ∀ (ops : List (OpTag × Nat × Nat × Nat × Nat)) (i j : Nat),
      opsOK a b i j ops →
      linesProject a b i a.length j b.length ((ops.map (renderOp a b)).flatten) := by
  intro ops
  induction ops with
  | nil =>
    intro i j h
    have h2 : i = a.length ∧ j = b.length := h
    refine ⟨?_, ?_, by intro w hw; cases hw⟩
    · rw [listSlice_nil a i a.length (by omega)]; rfl
    · rw [listSlice_nil b j b.length (by omega)]; rfl
  | cons op rest ih =>
    obtain ⟨tag, a1, a2, b1, b2⟩ := op
    intro i j h
    simp only [List.map_cons, List.flatten_cons]
    cases tag with
    | equal =>
      have h2 : a1 = i ∧ b1 = j ∧ a1 ≤ a2 ∧ b1 ≤ b2 ∧ a2 ≤ a.length ∧ b2 ≤ b.length ∧
          listSlice a a1 a2 = listSlice b b1 b2 ∧ opsOK a b a2 b2 rest := h
      obtain ⟨e1, e2, e3, e4, e5, e6, hcond, erest⟩ := h2
      subst e1
      subst e2
      obtain ⟨hr1, hr2, hr3⟩ := ih a2 b2 erest
      have hsplitA : listSlice a a1 a2 ++ listSlice a a2 a.length = listSlice a a1 a.length :=
        listSlice_append a a1 a2 a.length e3 e5
      have hsplitB : listSlice b b1 b2 ++ listSlice b b2 b.length = listSlice b b1 b.length :=
        listSlice_append b b1 b2 b.length e4 e6
      have hre : renderOp a b (OpTag.equal, a1, a2, b1, b2) = dump " " a a1 a2 := rfl
      obtain ⟨d1, d2, d3⟩ := dump_project_space a a1 a2
      refine ⟨?_, ?_, ?_⟩
      · rw [sideTokens_append, hre, d1, hr1, hsplitA]
      · rw [sideTokens_append, hre, d2, hr2, hcond, hsplitB]
      · intro w hw
        rcases List.mem_append.mp hw with hw | hw
        · exact d3 w (hre ▸ hw)
        · exact hr3 w hw
    | delete =>
      have h2 : a1 = i ∧ b1 = j ∧ a1 ≤ a2 ∧ b1 ≤ b2 ∧ a2 ≤ a.length ∧ b2 ≤ b.length ∧
          b1 = b2 ∧ opsOK a b a2 b2 rest := h
      obtain ⟨e1, e2, e3, e4, e5, e6, hcond, erest⟩ := h2
      subst e1
      subst e2
      obtain ⟨hr1, hr2, hr3⟩ := ih a2 b2 erest
      have hsplitA : listSlice a a1 a2 ++ listSlice a a2 a.length = listSlice a a1 a.length :=
        listSlice_append a a1 a2 a.length e3 e5
      have hre : renderOp a b (OpTag.delete, a1, a2, b1, b2) = dump "-" a a1 a2 := rfl
      obtain ⟨d1, d2, d3⟩ := dump_project_minus a a1 a2
      refine ⟨?_, ?_, ?_⟩
      · rw [sideTokens_append, hre, d1, hr1, hsplitA]
      · rw [sideTokens_append, hre, d2, hr2, List.nil_append, hcond]
      · intro w hw
        rcases List.mem_append.mp hw with hw | hw
        · exact d3 w (hre ▸ hw)
        · exact hr3 w hw
    | insert =>
      have h2 : a1 = i ∧ b1 = j ∧ a1 ≤ a2 ∧ b1 ≤ b2 ∧ a2 ≤ a.length ∧ b2 ≤ b.length ∧
          a1 = a2 ∧ opsOK a b a2 b2 rest := h
      obtain ⟨e1, e2, e3, e4, e5, e6, hcond, erest⟩ := h2
      subst e1
      subst e2
      obtain ⟨hr1, hr2, hr3⟩ := ih a2 b2 erest
      have hsplitB : listSlice b b1 b2 ++ listSlice b b2 b.length = listSlice b b1 b.length :=
        listSlice_append b b1 b2 b.length e4 e6
      have hre : renderOp a b (OpTag.insert, a1, a2, b1, b2) = dump "+" b b1 b2 := rfl
      obtain ⟨d1, d2, d3⟩ := dump_project_plus b b1 b2
      refine ⟨?_, ?_, ?_⟩
      · rw [sideTokens_append, hre, d1, hr1, List.nil_append, hcond]
      · rw [sideTokens_append, hre, d2, hr2, hsplitB]
      · intro w hw
        rcases List.mem_append.mp hw with hw | hw
        · exact d3 w (hre ▸ hw)
        · exact hr3 w hw
    | replace =>
      have h2 : a1 = i ∧ b1 = j ∧ a1 ≤ a2 ∧ b1 ≤ b2 ∧ a2 ≤ a.length ∧ b2 ≤ b.length ∧
          (a1 < a2 ∧ b1 < b2) ∧ opsOK a b a2 b2 rest := h
      obtain ⟨e1, e2, e3, e4, e5, e6, hcond, erest⟩ := h2
      subst e1
      subst e2
      obtain ⟨hr1, hr2, hr3⟩ := ih a2 b2 erest
      have hsplitA : listSlice a a1 a2 ++ listSlice a a2 a.length = listSlice a a1 a.length :=
        listSlice_append a a1 a2 a.length e3 e5
      have hsplitB : listSlice b b1 b2 ++ listSlice b b2 b.length = listSlice b b1 b.length :=
        listSlice_append b b1 b2 b.length e4 e6
      have hre : renderOp a b (OpTag.replace, a1, a2, b1, b2) =
          fancyReplaceFuel a b (a.length + b.length + 1) a1 a2 b1 b2 := rfl
      obtain ⟨d1, d2, d3⟩ :=
        fancyReplace_project a b (a.length + b.length + 1) a1 a2 b1 b2 (by omega) e5 e6
      refine ⟨?_, ?_, ?_⟩
      · rw [sideTokens_append, hre, d1, hr1, hsplitA]
      · rw [sideTokens_append, hre, d2, hr2, hsplitB]
      · intro w hw
        rcases List.mem_append.mp hw with hw | hw
        · exact d3 w (hre ▸ hw)
        · exact hr3 w hw

theorem differCompare_project (a b : List String) :
    sideTokens isASide (differCompare a b) = a ∧
    sideTokens isBSide (differCompare a b) = b ∧
    ∀ w ∈ differCompare a b, lineShaped w := by
  obtain ⟨h1, h2, h3⟩ :=
    opsProject a b (getOpcodes lineJunkParams a b) 0 0 (getOpcodes_ok lineJunkParams a b)
  unfold differCompare
  refine ⟨?_, ?_, h3⟩
  · rw [h1, listSlice_full]
  · rw [h2, listSlice_full]

/-! ## Classifying shaped diff lines into fragments -/

theorem sideTokens_cons (sel : String → Bool) (w : String) (L : List String) :
    sideTokens sel (w :: L) =
      (if sel w then [strDrop w 2] else []) ++ sideTokens sel L := by
  unfold sideTokens
  rw [List.filter_cons]
  cases h : sel w <;> simp

theorem shaped_classify (L : List String) :
    (∀ w ∈ L, lineShaped w) →
    ((L.filterMap fun word =>
        if pyStartswith word "  " then some (FragTag.unchanged, strDrop word 2)
        else if pyStartswith word "- " then some (FragTag.removed, strDrop word 2)
        else if pyStartswith word "+ " then some (FragTag.added, strDrop word 2)
        else none).filterMap
          (fun f => if f.1 = FragTag.added then none else some f.2) = sideTokens isASide L ∧
      (L.filterMap fun word =>
        if pyStartswith word "  " then some (FragTag.unchanged, strDrop word 2)
        else if pyStartswith word "- " then some (FragTag.removed, strDrop word 2)
        else if pyStartswith word "+ " then some (FragTag.added, strDrop word 2)
        else none).filterMap
          (fun f => if f.1 = FragTag.removed then none else some f.2) = sideTokens isBSide L ∧
      (L.filterMap fun word =>
        if pyStartswith word "  " then some ("<span>" ++ strDrop word 2 ++ "</span>")
        else if pyStartswith word "- " then
          some ("<span style=\"background-color: #ffcdd2\">" ++ strDrop word 2 ++ "</span>")
        else if pyStartswith word "+ " then
          some ("<span style=\"background-color: #c8e6c9\">" ++ strDrop word 2 ++ "</span>")
        else none) =
        (L.filterMap fun word =>
          if pyStartswith word "  " then some (FragTag.unchanged, strDrop word 2)
          else if pyStartswith word "- " then some (FragTag.removed, strDrop word 2)
          else if pyStartswith word "+ " then some (FragTag.added, strDrop word 2)
          else none).map fragSpan ∧
      ((L.filterMap fun word =>
        if pyStartswith word "  " then some (FragTag.unchanged, strDrop word 2)
        else if pyStartswith word "- " then some (FragTag.removed, strDrop word 2)
        else if pyStartswith word "+ " then some (FragTag.added, strDrop word 2)
        else none).filter fun f => f.1 = FragTag.added).length =
        (L.filter fun d => pyStartswith d "+").length ∧
      ((L.filterMap fun word =>
        if pyStartswith word "  " then some (FragTag.unchanged, strDrop word 2)
        else if pyStartswith word "- " then some (FragTag.removed, strDrop word 2)
        else if pyStartswith word "+ " then some (FragTag.added, strDrop word 2)
        else none).filter fun f => f.1 = FragTag.removed).length =
        (L.filter fun d => pyStartswith d "-").length) := by
  induction L with
  | nil => intro _; exact ⟨rfl, rfl, rfl, rfl, rfl⟩
  | cons w L ih =>
    intro hL
    obtain ⟨h1, h2, h3, h4, h5⟩ := ih fun x hx => hL x (List.mem_cons_of_mem w hx)
    obtain ⟨c, rest, hw, hc⟩ := hL w (List.mem_cons_self w L)
    have e2a := startswith_eval2 w c rest hw ' ' ' ' "  " rfl
    have e2b := startswith_eval2 w c rest hw '-' ' ' "- " rfl
    have e2c := startswith_eval2 w c rest hw '+' ' ' "+ " rfl
    have e1a := startswith_eval1 w c rest hw '+' "+" rfl
    have e1b := startswith_eval1 w c rest hw '-' "-" rfl
    have easide := isASide_eval w c rest hw
    have ebside := isBSide_eval w c rest hw
    have edrop := strDrop_eval w c rest hw
    rcases hc with hc | hc | hc | hc
    · subst hc
      have g1 : pyStartswith w "  " = true := by rw [e2a]; decide
      have g2 : pyStartswith w "- " = false := by rw [e2b]; decide
      have g3 : pyStartswith w "+ " = false := by rw [e2c]; decide
      have g4 : pyStartswith w "+" = false := by rw [e1a]; decide
      have g5 : pyStartswith w "-" = false := by rw [e1b]; decide
      have g6 : isASide w = true := by rw [easide]; decide
      have g7 : isBSide w = true := by rw [ebside]; decide
      refine ⟨?_, ?_, ?_, ?_, ?_⟩ <;>
        simp [List.filterMap_cons, List.filter_cons, sideTokens_cons, g1, g2, g3, g4, g5,
          g6, g7, fragSpan, h1, h2, h3, h4, h5]
    · subst hc
      have g1 : pyStartswith w "  " = false := by rw [e2a]; decide
      have g2 : pyStartswith w "- " = true := by rw [e2b]; decide
      have g3 : pyStartswith w "+ " = false := by rw [e2c]; decide
      have g4 : pyStartswith w "+" = false := by rw [e1a]; decide
      have g5 : pyStartswith w "-" = true := by rw [e1b]; decide
      have g6 : isASide w = true := by rw [easide]; decide
      have g7 : isBSide w = false := by rw [ebside]; decide
      refine ⟨?_, ?_, ?_, ?_, ?_⟩ <;>
        simp [List.filterMap_cons, List.filter_cons, sideTokens_cons, g1, g2, g3, g4, g5,
          g6, g7, fragSpan, h1, h2, h3, h4, h5]
    · subst hc
      have g1 : pyStartswith w "  " = false := by rw [e2a]; decide
      have g2 : pyStartswith w "- " = false := by rw [e2b]; decide
      have g3 : pyStartswith w "+ " = true := by rw [e2c]; decide
      have g4 : pyStartswith w "+" = true := by rw [e1a]; decide
      have g5 : pyStartswith w "-" = false := by rw [e1b]; decide
      have g6 : isASide w = false := by rw [easide]; decide
      have g7 : isBSide w = true := by rw [ebside]; decide
      refine ⟨?_, ?_, ?_, ?_, ?_⟩ <;>
        simp [List.filterMap_cons, List.filter_cons, sideTokens_cons, g1, g2, g3, g4, g5,
          g6, g7, fragSpan, h1, h2, h3, h4, h5]
    · subst hc
      have g1 : pyStartswith w "  " = false := by rw [e2a]; decide
      have g2 : pyStartswith w "- " = false := by rw [e2b]; decide
      have g3 : pyStartswith w "+ " = false := by rw [e2c]; decide
      have g4 : pyStartswith w "+" = false := by rw [e1a]; decide
      have g5 : pyStartswith w "-" = false := by rw [e1b]; decide
      have g6 : isASide w = false := by rw [easide]; decide
      have g7 : isBSide w = false := by rw [ebside]; decide
      refine ⟨?_, ?_, ?_, ?_, ?_⟩ <;>
        simp [List.filterMap_cons, List.filter_cons, sideTokens_cons, g1, g2, g3, g4, g5,
          g6, g7, fragSpan, h1, h2, h3, h4, h5]

set_option maxHeartbeats 1600000 in
/-- C6: when exactly one side is empty, `calculate_edit_distance` returns
`(0, #tokens of original)` for an empty edited text and
`(#tokens of edited, 0)` for an empty original (src/app.py 25-33). -/
theorem C6_one_sided_empty (original edited : String) :
    (edited = "" → original ≠ "" →
      calculate_edit_distance original edited = (0, (pySplit original).length)) ∧
    (original = "" → edited ≠ "" →
      calculate_edit_distance original edited = ((pySplit edited).length, 0)) := by
  constructor
  · intro he _h0
    subst he
    obtain ⟨hA, hB, hS⟩ := differCompare_project (pySplit original) (pySplit "")
    have hB0 : sideTokens isBSide (differCompare (pySplit original) (pySplit "")) = [] := hB
    have hf : (differCompare (pySplit original) (pySplit "")).filter isBSide = [] := by
      unfold sideTokens at hB0
      exact List.map_eq_nil_iff.mp hB0
    have hall : ∀ w ∈ differCompare (pySplit original) (pySplit ""), isBSide w = false := by
      intro w hw
      exact Bool.eq_false_iff.mpr (List.filter_eq_nil_iff.mp hf w hw)
    refine Prod.ext ?_ ?_
    · show ((differCompare (pySplit original) (pySplit "")).filter fun d =>
        pyStartswith d "+").length = 0
      have hnil : (differCompare (pySplit original) (pySplit "")).filter
          (fun d => pyStartswith d "+") = [] := by
        refine List.filter_eq_nil_iff.mpr ?_
        intro w hw
        obtain ⟨c, rest, hww, _hc⟩ := hS w hw
        have hb := hall w hw
        rw [isBSide_eval w c rest hww] at hb
        simp only [Bool.or_eq_false_iff] at hb
        rw [startswith_eval1 w c rest hww '+' "+" rfl, hb.2]
        simp
      rw [hnil]
      rfl
    · show ((differCompare (pySplit original) (pySplit "")).filter fun d =>
        pyStartswith d "-").length = (pySplit original).length
      have hcg : (differCompare (pySplit original) (pySplit "")).filter
          (fun d => pyStartswith d "-") =
          (differCompare (pySplit original) (pySplit "")).filter isASide := by
        refine List.filter_congr ?_
        intro w hw
        obtain ⟨c, rest, hww, _hc⟩ := hS w hw
        have hb := hall w hw
        rw [isBSide_eval w c rest hww] at hb
        simp only [Bool.or_eq_false_iff] at hb
        rw [startswith_eval1 w c rest hww '-' "-" rfl, isASide_eval w c rest hww, hb.1]
        simp
      rw [hcg]
      have hlen := congrArg List.length hA
      unfold sideTokens at hlen
      rw [List.length_map] at hlen
      exact hlen
  · intro ho _h1
    subst ho
    obtain ⟨hA, hB, hS⟩ := differCompare_project (pySplit "") (pySplit edited)
    have hA0 : sideTokens isASide (differCompare (pySplit "") (pySplit edited)) = [] := hA
    have hf : (differCompare (pySplit "") (pySplit edited)).filter isASide = [] := by
      unfold sideTokens at hA0
      exact List.map_eq_nil_iff.mp hA0
    have hall : ∀ w ∈ differCompare (pySplit "") (pySplit edited), isASide w = false := by
      intro w hw
      exact Bool.eq_false_iff.mpr (List.filter_eq_nil_iff.mp hf w hw)
    refine Prod.ext ?_ ?_
    · show ((differCompare (pySplit "") (pySplit edited)).filter fun d =>
        pyStartswith d "+").length = (pySplit edited).length
      have hcg : (differCompare (pySplit "") (pySplit edited)).filter
          (fun d => pyStartswith d "+") =
          (differCompare (pySplit "") (pySplit edited)).filter isBSide := by
        refine List.filter_congr ?_
        intro w hw
        obtain ⟨c, rest, hww, _hc⟩ := hS w hw
        have ha := hall w hw
        rw [isASide_eval w c rest hww] at ha
        simp only [Bool.or_eq_false_iff] at ha
        rw [startswith_eval1 w c rest hww '+' "+" rfl, isBSide_eval w c rest hww, ha.1]
        simp
      rw [hcg]
      have hlen := congrArg List.length hB
      unfold sideTokens at hlen
      rw [List.length_map] at hlen
      exact hlen
    · show ((differCompare (pySplit "") (pySplit edited)).filter fun d =>
        pyStartswith d "-").length = 0
      have hnil : (differCompare (pySplit "") (pySplit edited)).filter
          (fun d => pyStartswith d "-") = [] := by
        refine List.filter_eq_nil_iff.mpr ?_
        intro w hw
        obtain ⟨c, rest, hww, _hc⟩ := hS w hw
        have ha := hall w hw
        rw [isASide_eval w c rest hww] at ha
        simp only [Bool.or_eq_false_iff] at ha
        rw [startswith_eval1 w c rest hww '-' "-" rfl, ha.2]
        simp
      rw [hnil]
      rfl

theorem C6_one_sided_empty_witness :
    calculate_edit_distance "a b" "" = (0, 2) ∧
    calculate_edit_distance "" "x" = (1, 0) :=
  ⟨((C6_one_sided_empty "a b" "").1 rfl (by decide)).trans (by decide),
   ((C6_one_sided_empty "" "x").2 rfl (by decide)).trans (by decide)⟩

/-- C9: the highlighted rendering and the edit counter are consistent on every
input pair: the fragments of the rendering, read in order, project to the
whitespace tokens of `original` when the added-marked ones are skipped and to
the tokens of `edited` when the removed-marked ones are skipped; the HTML parts
are exactly the span renderings of those fragments in order; and the number of
added-marked (resp. removed-marked) fragments equals the insertions
(resp. deletions) of `calculate_edit_distance` (src/app.py 25-33 and 59-73). -/
theorem C9_highlight_consistent_with_counts (original edited : String) :
    (diffFragments original edited).filterMap
        (fun f => if f.1 = FragTag.added then none else some f.2) = pySplit original ∧
    (diffFragments original edited).filterMap
        (fun f => if f.1 = FragTag.removed then none else some f.2) = pySplit edited ∧
    highlightParts original edited = (diffFragments original edited).map fragSpan ∧
    ((diffFragments original edited).filter fun f => f.1 = FragTag.added).length =
      (calculate_edit_distance original edited).1 ∧
    ((diffFragments original edited).filter fun f => f.1 = FragTag.removed).length =
      (calculate_edit_distance original edited).2 := by
  obtain ⟨hA, hB, hS⟩ := differCompare_project (pySplit original) (pySplit edited)
  obtain ⟨m1, m2, m3, m4, m5⟩ :=
    shaped_classify (differCompare (pySplit original) (pySplit edited)) hS
  exact ⟨m1.trans hA, m2.trans hB, m3, m4, m5⟩
